import Mathlib

/-!
# Verification of the bsv-wasm core against its specification

Shallow embedding of the repository's core components:

* the CompactSize / VarInt encoders (`src/traits/varint.rs`),
* the opcode table (`src/script/op_codes.rs`),
* the `ScriptBit` codec (`src/script/script_bit.rs`),
* the BIP32 extended-private-key operations (`src/keypair/extended_private_key.rs`),
* the ECDSA verify wrapper (`src/ecdsa/verify.rs`),

together with theorems settling the specification's claims about them.
Machine integers are modelled as `Nat` with explicit `% 2 ^ w` truncation at
the points where the source performs an `as` cast; byte strings are
`List Nat`; fallible operations return `Except`.  External collaborators
(hashing, base58, curve arithmetic, randomness) are taken as parameters.
-/

namespace BsvWasm

/-! ## Little-endian byte strings -/

/-- `w` little-endian bytes of `n` (truncating to `n % 2 ^ (8 * w)`), as in
`to_le_bytes` on a `w`-byte machine integer. -/
def leBytes : Nat → Nat → List Nat
  | 0, _ => []
  | w + 1, n => n % 256 :: leBytes w (n / 256)

/-- Value of a little-endian byte string (first byte least significant). -/
def leVal (bs : List Nat) : Nat :=
  bs.foldr (fun b acc => b + 256 * acc) 0

theorem leBytes_length (w n : Nat) : (leBytes w n).length = w := by
  induction w generalizing n with
  | zero => rfl
  | succ w ih => simp [leBytes, ih]

theorem leVal_leBytes (w n : Nat) (h : n < 2 ^ (8 * w)) :
    leVal (leBytes w n) = n := by
  induction w generalizing n with
  | zero =>
    simp only [Nat.mul_zero, pow_zero, Nat.lt_one_iff] at h
    simp [h, leBytes, leVal]
  | succ w ih =>
    have hdiv : n / 256 < 2 ^ (8 * w) := by
      rw [Nat.div_lt_iff_lt_mul (by norm_num)]
      calc n < 2 ^ (8 * (w + 1)) := h
        _ = 2 ^ (8 * w) * 256 := by ring
    simp only [leBytes, leVal, List.foldr_cons]
    have : leVal (leBytes w (n / 256)) = n / 256 := ih (n / 256) hdiv
    simp only [leVal] at this
    rw [this]
    omega

/-! ## VarInt codec (`src/traits/varint.rs`)

`get_varint_bytes` and `write_varint` are both CompactSize encoders in the
source; they branch on different thresholds. -/

/-- `VarInt::get_varint_bytes` translated from the source: note its branch
thresholds are `252 / 0xff / 0xffff`. -/
def get_varint_bytes (length : Nat) : List Nat :=
  if length ≤ 252 then
    [length % 256]
  else if length ≤ 0xff then
    0xfd :: leBytes 2 length
  else if length ≤ 0xffff then
    0xfe :: leBytes 4 length
  else
    0xff :: leBytes 8 length

/-- `write_varint` (the `VarIntWriter` impls) translated from the source:
branch thresholds `252 / 0xffff / 0xffffffff`. -/
def write_varint (varint : Nat) : List Nat :=
  if varint ≤ 252 then
    [varint % 256]
  else if varint ≤ 0xffff then
    0xfd :: leBytes 2 varint
  else if varint ≤ 0xffffffff then
    0xfe :: leBytes 4 varint
  else
    0xff :: leBytes 8 varint

/-- The length-minimal CompactSize form, written from the specification's
words (`n ≤ 252` → 1 byte; `n ≤ 0xffff` → `0xfd` + 2-byte LE;
`n ≤ 0xffffffff` → `0xfe` + 4-byte LE; else `0xff` + 8-byte LE), for
comparison with the source encoders. -/
def compactSizeSpec (n : Nat) : List Nat :=
  if n ≤ 252 then
    [n]
  else if n ≤ 0xffff then
    0xfd :: leBytes 2 n
  else if n ≤ 0xffffffff then
    0xfe :: leBytes 4 n
  else
    0xff :: leBytes 8 n

/-- `VarInt::get_varint_size` translated from the source. -/
def get_varint_size (data_length : Nat) : Nat :=
  if data_length ≤ 252 then 1
  else if data_length ≤ 0xffff then 2
  else if data_length ≤ 0xffffffff then 4
  else 8

/-! ## The opcode table (`src/script/op_codes.rs`) -/

/-- The `OpCodes` enumeration, one constructor per variant of the source
enum. -/
inductive OpCodes where
  | OP_0
  | OP_PUSHDATA1
  | OP_PUSHDATA2
  | OP_PUSHDATA4
  | OP_1NEGATE
  | OP_1
  | OP_2
  | OP_3
  | OP_4
  | OP_5
  | OP_6
  | OP_7
  | OP_8
  | OP_9
  | OP_10
  | OP_11
  | OP_12
  | OP_13
  | OP_14
  | OP_15
  | OP_16
  | OP_NOP
  | OP_IF
  | OP_NOTIF
  | OP_ELSE
  | OP_ENDIF
  | OP_VERIFY
  | OP_RETURN
  | OP_TOALTSTACK
  | OP_FROMALTSTACK
  | OP_IFDUP
  | OP_DEPTH
  | OP_DROP
  | OP_DUP
  | OP_NIP
  | OP_OVER
  | OP_PICK
  | OP_ROLL
  | OP_ROT
  | OP_SWAP
  | OP_TUCK
  | OP_2DROP
  | OP_2DUP
  | OP_3DUP
  | OP_2OVER
  | OP_2ROT
  | OP_2SWAP
  | OP_CAT
  | OP_SPLIT
  | OP_SIZE
  | OP_INVERT
  | OP_AND
  | OP_OR
  | OP_XOR
  | OP_EQUAL
  | OP_EQUALVERIFY
  | OP_1ADD
  | OP_1SUB
  | OP_NEGATE
  | OP_ABS
  | OP_NOT
  | OP_0NOTEQUAL
  | OP_ADD
  | OP_SUB
  | OP_MUL
  | OP_DIV
  | OP_MOD
  | OP_LSHIFT
  | OP_RSHIFT
  | OP_BOOLAND
  | OP_BOOLOR
  | OP_NUMEQUAL
  | OP_NUMEQUALVERIFY
  | OP_NUMNOTEQUAL
  | OP_LESSTHAN
  | OP_GREATERTHAN
  | OP_LESSTHANOREQUAL
  | OP_GREATERTHANOREQUAL
  | OP_MIN
  | OP_MAX
  | OP_WITHIN
  | OP_NUM2BIN
  | OP_BIN2NUM
  | OP_RIPEMD160
  | OP_SHA1
  | OP_SHA256
  | OP_HASH160
  | OP_HASH256
  | OP_CODESEPARATOR
  | OP_CHECKSIG
  | OP_CHECKSIGVERIFY
  | OP_CHECKMULTISIG
  | OP_CHECKMULTISIGVERIFY
  | OP_CHECKLOCKTIMEVERIFY
  | OP_CHECKSEQUENCEVERIFY
  | OP_DATA
  | OP_SIG
  | OP_PUBKEYHASH
  | OP_PUBKEY
  | OP_INVALIDOPCODE
  | OP_RESERVED
  | OP_VER
  | OP_VERIF
  | OP_VERNOTIF
  | OP_RESERVED1
  | OP_RESERVED2
  | OP_NOP1
  | OP_NOP4
  | OP_NOP5
  | OP_NOP6
  | OP_NOP7
  | OP_NOP8
  | OP_NOP9
  | OP_NOP10
  | OP_INVALID_ABOVE
  | OP_2MUL
  | OP_2DIV
  deriving DecidableEq, Repr

/-- Discriminant of each variant (the `= n` values in the source enum, i.e.
`impl From<OpCodes> for u8`). -/
def toU8 : OpCodes → Nat
  | .OP_0 => 0
  | .OP_PUSHDATA1 => 76
  | .OP_PUSHDATA2 => 77
  | .OP_PUSHDATA4 => 78
  | .OP_1NEGATE => 79
  | .OP_1 => 81
  | .OP_2 => 82
  | .OP_3 => 83
  | .OP_4 => 84
  | .OP_5 => 85
  | .OP_6 => 86
  | .OP_7 => 87
  | .OP_8 => 88
  | .OP_9 => 89
  | .OP_10 => 90
  | .OP_11 => 91
  | .OP_12 => 92
  | .OP_13 => 93
  | .OP_14 => 94
  | .OP_15 => 95
  | .OP_16 => 96
  | .OP_NOP => 97
  | .OP_IF => 99
  | .OP_NOTIF => 100
  | .OP_ELSE => 103
  | .OP_ENDIF => 104
  | .OP_VERIFY => 105
  | .OP_RETURN => 106
  | .OP_TOALTSTACK => 107
  | .OP_FROMALTSTACK => 108
  | .OP_IFDUP => 115
  | .OP_DEPTH => 116
  | .OP_DROP => 117
  | .OP_DUP => 118
  | .OP_NIP => 119
  | .OP_OVER => 120
  | .OP_PICK => 121
  | .OP_ROLL => 122
  | .OP_ROT => 123
  | .OP_SWAP => 124
  | .OP_TUCK => 125
  | .OP_2DROP => 109
  | .OP_2DUP => 110
  | .OP_3DUP => 111
  | .OP_2OVER => 112
  | .OP_2ROT => 113
  | .OP_2SWAP => 114
  | .OP_CAT => 126
  | .OP_SPLIT => 127
  | .OP_SIZE => 130
  | .OP_INVERT => 131
  | .OP_AND => 132
  | .OP_OR => 133
  | .OP_XOR => 134
  | .OP_EQUAL => 135
  | .OP_EQUALVERIFY => 136
  | .OP_1ADD => 139
  | .OP_1SUB => 140
  | .OP_NEGATE => 143
  | .OP_ABS => 144
  | .OP_NOT => 145
  | .OP_0NOTEQUAL => 146
  | .OP_ADD => 147
  | .OP_SUB => 148
  | .OP_MUL => 149
  | .OP_DIV => 150
  | .OP_MOD => 151
  | .OP_LSHIFT => 152
  | .OP_RSHIFT => 153
  | .OP_BOOLAND => 154
  | .OP_BOOLOR => 155
  | .OP_NUMEQUAL => 156
  | .OP_NUMEQUALVERIFY => 157
  | .OP_NUMNOTEQUAL => 158
  | .OP_LESSTHAN => 159
  | .OP_GREATERTHAN => 160
  | .OP_LESSTHANOREQUAL => 161
  | .OP_GREATERTHANOREQUAL => 162
  | .OP_MIN => 163
  | .OP_MAX => 164
  | .OP_WITHIN => 165
  | .OP_NUM2BIN => 128
  | .OP_BIN2NUM => 129
  | .OP_RIPEMD160 => 166
  | .OP_SHA1 => 167
  | .OP_SHA256 => 168
  | .OP_HASH160 => 169
  | .OP_HASH256 => 170
  | .OP_CODESEPARATOR => 171
  | .OP_CHECKSIG => 172
  | .OP_CHECKSIGVERIFY => 173
  | .OP_CHECKMULTISIG => 174
  | .OP_CHECKMULTISIGVERIFY => 175
  | .OP_CHECKLOCKTIMEVERIFY => 177
  | .OP_CHECKSEQUENCEVERIFY => 178
  | .OP_DATA => 251
  | .OP_SIG => 252
  | .OP_PUBKEYHASH => 253
  | .OP_PUBKEY => 254
  | .OP_INVALIDOPCODE => 255
  | .OP_RESERVED => 80
  | .OP_VER => 98
  | .OP_VERIF => 101
  | .OP_VERNOTIF => 102
  | .OP_RESERVED1 => 137
  | .OP_RESERVED2 => 138
  | .OP_NOP1 => 176
  | .OP_NOP4 => 179
  | .OP_NOP5 => 180
  | .OP_NOP6 => 181
  | .OP_NOP7 => 182
  | .OP_NOP8 => 183
  | .OP_NOP9 => 184
  | .OP_NOP10 => 185
  | .OP_INVALID_ABOVE => 186
  | .OP_2MUL => 141
  | .OP_2DIV => 142

/-- `impl From<u8> for OpCodes` translated arm by arm from the source match:
the listed byte values, the `186..=250` band collapsing to
`OP_INVALID_ABOVE`, and the wildcard arm yielding `OP_INVALIDOPCODE`. -/
def fromU8 (value : Nat) : OpCodes :=
  if value = 0 then .OP_0
  else if value = 76 then .OP_PUSHDATA1
  else if value = 77 then .OP_PUSHDATA2
  else if value = 78 then .OP_PUSHDATA4
  else if value = 79 then .OP_1NEGATE
  else if value = 81 then .OP_1
  else if value = 82 then .OP_2
  else if value = 83 then .OP_3
  else if value = 84 then .OP_4
  else if value = 85 then .OP_5
  else if value = 86 then .OP_6
  else if value = 87 then .OP_7
  else if value = 88 then .OP_8
  else if value = 89 then .OP_9
  else if value = 90 then .OP_10
  else if value = 91 then .OP_11
  else if value = 92 then .OP_12
  else if value = 93 then .OP_13
  else if value = 94 then .OP_14
  else if value = 95 then .OP_15
  else if value = 96 then .OP_16
  else if value = 97 then .OP_NOP
  else if value = 99 then .OP_IF
  else if value = 100 then .OP_NOTIF
  else if value = 103 then .OP_ELSE
  else if value = 104 then .OP_ENDIF
  else if value = 105 then .OP_VERIFY
  else if value = 106 then .OP_RETURN
  else if value = 107 then .OP_TOALTSTACK
  else if value = 108 then .OP_FROMALTSTACK
  else if value = 109 then .OP_2DROP
  else if value = 110 then .OP_2DUP
  else if value = 111 then .OP_3DUP
  else if value = 112 then .OP_2OVER
  else if value = 113 then .OP_2ROT
  else if value = 114 then .OP_2SWAP
  else if value = 115 then .OP_IFDUP
  else if value = 116 then .OP_DEPTH
  else if value = 117 then .OP_DROP
  else if value = 118 then .OP_DUP
  else if value = 119 then .OP_NIP
  else if value = 120 then .OP_OVER
  else if value = 121 then .OP_PICK
  else if value = 122 then .OP_ROLL
  else if value = 123 then .OP_ROT
  else if value = 124 then .OP_SWAP
  else if value = 125 then .OP_TUCK
  else if value = 126 then .OP_CAT
  else if value = 127 then .OP_SPLIT
  else if value = 130 then .OP_SIZE
  else if value = 131 then .OP_INVERT
  else if value = 132 then .OP_AND
  else if value = 133 then .OP_OR
  else if value = 134 then .OP_XOR
  else if value = 135 then .OP_EQUAL
  else if value = 136 then .OP_EQUALVERIFY
  else if value = 139 then .OP_1ADD
  else if value = 140 then .OP_1SUB
  else if value = 143 then .OP_NEGATE
  else if value = 144 then .OP_ABS
  else if value = 145 then .OP_NOT
  else if value = 146 then .OP_0NOTEQUAL
  else if value = 147 then .OP_ADD
  else if value = 148 then .OP_SUB
  else if value = 149 then .OP_MUL
  else if value = 150 then .OP_DIV
  else if value = 151 then .OP_MOD
  else if value = 152 then .OP_LSHIFT
  else if value = 153 then .OP_RSHIFT
  else if value = 154 then .OP_BOOLAND
  else if value = 155 then .OP_BOOLOR
  else if value = 156 then .OP_NUMEQUAL
  else if value = 157 then .OP_NUMEQUALVERIFY
  else if value = 158 then .OP_NUMNOTEQUAL
  else if value = 159 then .OP_LESSTHAN
  else if value = 160 then .OP_GREATERTHAN
  else if value = 161 then .OP_LESSTHANOREQUAL
  else if value = 162 then .OP_GREATERTHANOREQUAL
  else if value = 163 then .OP_MIN
  else if value = 164 then .OP_MAX
  else if value = 165 then .OP_WITHIN
  else if value = 128 then .OP_NUM2BIN
  else if value = 129 then .OP_BIN2NUM
  else if value = 166 then .OP_RIPEMD160
  else if value = 167 then .OP_SHA1
  else if value = 168 then .OP_SHA256
  else if value = 169 then .OP_HASH160
  else if value = 170 then .OP_HASH256
  else if value = 171 then .OP_CODESEPARATOR
  else if value = 172 then .OP_CHECKSIG
  else if value = 173 then .OP_CHECKSIGVERIFY
  else if value = 174 then .OP_CHECKMULTISIG
  else if value = 175 then .OP_CHECKMULTISIGVERIFY
  else if value = 177 then .OP_CHECKLOCKTIMEVERIFY
  else if value = 178 then .OP_CHECKSEQUENCEVERIFY
  else if value = 179 then .OP_NOP4
  else if value = 180 then .OP_NOP5
  else if value = 181 then .OP_NOP6
  else if value = 182 then .OP_NOP7
  else if value = 183 then .OP_NOP8
  else if value = 184 then .OP_NOP9
  else if value = 185 then .OP_NOP10
  else if 186 ≤ value ∧ value ≤ 250 then .OP_INVALID_ABOVE
  else if value = 251 then .OP_DATA
  else if value = 252 then .OP_SIG
  else if value = 253 then .OP_PUBKEYHASH
  else if value = 254 then .OP_PUBKEY
  else if value = 255 then .OP_INVALIDOPCODE
  else .OP_INVALIDOPCODE

/-- All variants of the enum, for discriminant lookup. -/
def opcodeList : List OpCodes :=
  [OpCodes.OP_0, OpCodes.OP_PUSHDATA1, OpCodes.OP_PUSHDATA2, OpCodes.OP_PUSHDATA4,
   OpCodes.OP_1NEGATE, OpCodes.OP_1, OpCodes.OP_2, OpCodes.OP_3, OpCodes.OP_4, OpCodes.OP_5,
   OpCodes.OP_6, OpCodes.OP_7, OpCodes.OP_8, OpCodes.OP_9, OpCodes.OP_10, OpCodes.OP_11,
   OpCodes.OP_12, OpCodes.OP_13, OpCodes.OP_14, OpCodes.OP_15, OpCodes.OP_16, OpCodes.OP_NOP,
   OpCodes.OP_IF, OpCodes.OP_NOTIF, OpCodes.OP_ELSE, OpCodes.OP_ENDIF, OpCodes.OP_VERIFY,
   OpCodes.OP_RETURN, OpCodes.OP_TOALTSTACK, OpCodes.OP_FROMALTSTACK, OpCodes.OP_IFDUP,
   OpCodes.OP_DEPTH, OpCodes.OP_DROP, OpCodes.OP_DUP, OpCodes.OP_NIP, OpCodes.OP_OVER,
   OpCodes.OP_PICK, OpCodes.OP_ROLL, OpCodes.OP_ROT, OpCodes.OP_SWAP, OpCodes.OP_TUCK,
   OpCodes.OP_2DROP, OpCodes.OP_2DUP, OpCodes.OP_3DUP, OpCodes.OP_2OVER, OpCodes.OP_2ROT,
   OpCodes.OP_2SWAP, OpCodes.OP_CAT, OpCodes.OP_SPLIT, OpCodes.OP_SIZE, OpCodes.OP_INVERT,
   OpCodes.OP_AND, OpCodes.OP_OR, OpCodes.OP_XOR, OpCodes.OP_EQUAL, OpCodes.OP_EQUALVERIFY,
   OpCodes.OP_1ADD, OpCodes.OP_1SUB, OpCodes.OP_NEGATE, OpCodes.OP_ABS, OpCodes.OP_NOT,
   OpCodes.OP_0NOTEQUAL, OpCodes.OP_ADD, OpCodes.OP_SUB, OpCodes.OP_MUL, OpCodes.OP_DIV,
   OpCodes.OP_MOD, OpCodes.OP_LSHIFT, OpCodes.OP_RSHIFT, OpCodes.OP_BOOLAND, OpCodes.OP_BOOLOR,
   OpCodes.OP_NUMEQUAL, OpCodes.OP_NUMEQUALVERIFY, OpCodes.OP_NUMNOTEQUAL, OpCodes.OP_LESSTHAN,
   OpCodes.OP_GREATERTHAN, OpCodes.OP_LESSTHANOREQUAL, OpCodes.OP_GREATERTHANOREQUAL,
   OpCodes.OP_MIN, OpCodes.OP_MAX, OpCodes.OP_WITHIN, OpCodes.OP_NUM2BIN, OpCodes.OP_BIN2NUM,
   OpCodes.OP_RIPEMD160, OpCodes.OP_SHA1, OpCodes.OP_SHA256, OpCodes.OP_HASH160,
   OpCodes.OP_HASH256, OpCodes.OP_CODESEPARATOR, OpCodes.OP_CHECKSIG, OpCodes.OP_CHECKSIGVERIFY,
   OpCodes.OP_CHECKMULTISIG, OpCodes.OP_CHECKMULTISIGVERIFY, OpCodes.OP_CHECKLOCKTIMEVERIFY,
   OpCodes.OP_CHECKSEQUENCEVERIFY, OpCodes.OP_DATA, OpCodes.OP_SIG, OpCodes.OP_PUBKEYHASH,
   OpCodes.OP_PUBKEY, OpCodes.OP_INVALIDOPCODE, OpCodes.OP_RESERVED, OpCodes.OP_VER,
   OpCodes.OP_VERIF, OpCodes.OP_VERNOTIF, OpCodes.OP_RESERVED1, OpCodes.OP_RESERVED2,
   OpCodes.OP_NOP1, OpCodes.OP_NOP4, OpCodes.OP_NOP5, OpCodes.OP_NOP6, OpCodes.OP_NOP7,
   OpCodes.OP_NOP8, OpCodes.OP_NOP9, OpCodes.OP_NOP10, OpCodes.OP_INVALID_ABOVE, OpCodes.OP_2MUL,
   OpCodes.OP_2DIV]

/-- The derived `FromPrimitive::from_u8`: the variant whose discriminant is
`value`, if any (the enum's discriminants are pairwise distinct). -/
def fromU8Opt (value : Nat) : Option OpCodes :=
  opcodeList.find? (fun c => toU8 c = value)

/-- A byte value is individually assigned when some enum variant carries it
as its discriminant. -/
def isAssigned (value : Nat) : Bool :=
  opcodeList.any (fun c => toU8 c = value)

/-! ## Claim C3: CompactSize minimality -/

/-- C3 counterexample: at `n = 256` the source's `get_varint_bytes` emits the
five-byte `0xfe` form while the length-minimal CompactSize form (taken by
`write_varint`) is the three-byte `0xfd` form, so not every CompactSize
encoding function in the source is length-minimal. -/
theorem get_varint_bytes_256_not_minimal :
    get_varint_bytes 256 = [0xfe, 0, 1, 0, 0] ∧
    compactSizeSpec 256 = [0xfd, 0, 1] ∧
    write_varint 256 = [0xfd, 0, 1] ∧
    get_varint_bytes 256 ≠ compactSizeSpec 256 := by
  decide

/-- C3 amended: `write_varint` always emits the length-minimal CompactSize
form with the `252 / 0xffff / 0xffffffff` thresholds; `get_varint_bytes`
branches at `252 / 0xff / 0xffff` instead, so it is minimal only up to
`0xff` and otherwise emits the `0xfe` + 4-byte form for
`0x100 ≤ n ≤ 0xffff` and the `0xff` + 8-byte form above `0xffff`. -/
theorem varint_encoding_minimality (n : Nat) (h : n < 2 ^ 64) :
    write_varint n = compactSizeSpec n ∧
    (n ≤ 0xff → get_varint_bytes n = compactSizeSpec n) ∧
    (0xff < n → n ≤ 0xffff → get_varint_bytes n = 0xfe :: leBytes 4 n) ∧
    (0xffff < n → get_varint_bytes n = 0xff :: leBytes 8 n) := by
  refine ⟨?_, ?_, ?_, ?_⟩
  · unfold write_varint compactSizeSpec
    split_ifs with h1 h2 h3
    · rw [Nat.mod_eq_of_lt (by omega)]
    · rfl
    · rfl
    · rfl
  · intro h255
    unfold get_varint_bytes compactSizeSpec
    split_ifs with h1 h2 h3 <;>
      first
        | rw [Nat.mod_eq_of_lt (by omega)]
        | rfl
        | omega
  · intro hlo hhi
    unfold get_varint_bytes
    split_ifs with h1 h2 <;> first | rfl | omega
  · intro hlo
    unfold get_varint_bytes
    split_ifs with h1 h2 h3 <;> first | rfl | omega

/-- C3 witness: the amended theorem applied at `n = 300`. -/
theorem varint_encoding_minimality_at_300 :
    write_varint 300 = compactSizeSpec 300 ∧
    get_varint_bytes 300 = 0xfe :: leBytes 4 300 :=
  ⟨(varint_encoding_minimality 300 (by norm_num)).1,
   (varint_encoding_minimality 300 (by norm_num)).2.2.1 (by norm_num) (by norm_num)⟩

/-! ## Claim C4: opcode conversion totality and identity -/

/-- C4 counterexample: byte `80` is individually assigned (`OP_RESERVED`) and
lies outside the lossy `186..=250` band, yet `From<u8>` has no arm for it and
its wildcard sends it to `OP_INVALIDOPCODE`, whose discriminant is `255`, so
`u8::from(OpCode::from(80)) = 255 ≠ 80`. -/
theorem opcode_identity_fails_at_80 :
    isAssigned 80 = true ∧ toU8 OpCodes.OP_RESERVED = 80 ∧
    ¬(186 ≤ 80 ∧ 80 ≤ 250) ∧
    fromU8 80 = OpCodes.OP_INVALIDOPCODE ∧ toU8 (fromU8 80) = 255 := by
  decide

set_option maxRecDepth 4000 in
/-- C4 amended: `OpCode::from(v)` is total on `0..=255`, and
`u8::from(OpCode::from(v)) = v` holds for every individually-assigned byte
outside the `186..=250` band except the nine reserved/disabled words
`{80, 98, 101, 102, 137, 138, 141, 142, 176}` (`OP_RESERVED`, `OP_VER`,
`OP_VERIF`, `OP_VERNOTIF`, `OP_RESERVED1`, `OP_RESERVED2`, `OP_2MUL`,
`OP_2DIV`, `OP_NOP1`), which the conversion collapses to
`OP_INVALIDOPCODE`. -/
theorem opcode_table_amended (v : Nat) (hv : v < 256) :
    (isAssigned v = true → ¬(186 ≤ v ∧ v ≤ 250) →
      v ∉ ([80, 98, 101, 102, 137, 138, 141, 142, 176] : List Nat) →
      toU8 (fromU8 v) = v) ∧
    (v ∈ ([80, 98, 101, 102, 137, 138, 141, 142, 176] : List Nat) →
      fromU8 v = OpCodes.OP_INVALIDOPCODE) := by
  have h : ∀ u : Fin 256,
      (isAssigned u.val = true → ¬(186 ≤ u.val ∧ u.val ≤ 250) →
        u.val ∉ ([80, 98, 101, 102, 137, 138, 141, 142, 176] : List Nat) →
        toU8 (fromU8 u.val) = u.val) ∧
      (u.val ∈ ([80, 98, 101, 102, 137, 138, 141, 142, 176] : List Nat) →
        fromU8 u.val = OpCodes.OP_INVALIDOPCODE) := by decide
  exact h ⟨v, hv⟩

/-- C4 witness: the amended theorem applied at `v = 172` (`OP_CHECKSIG`). -/
theorem opcode_table_amended_at_172 : toU8 (fromU8 172) = 172 :=
  (opcode_table_amended 172 (by norm_num)).1 (by decide) (by decide) (by decide)

/-! ## ScriptBit (`src/script/script_bit.rs`) -/

/-- The `ScriptBit` recursive tree type, one constructor per source
variant. -/
inductive ScriptBit where
  | OpCode (code : OpCodes)
  | If (code : OpCodes) (pass : List ScriptBit) (fail : Option (List ScriptBit))
  | Push (bytes : List Nat)
  | PushData (code : OpCodes) (bytes : List Nat)
  | Coinbase (bytes : List Nat)

/-- The three PUSHDATA opcodes matched by the decoder. -/
def isPushdataOpcode : OpCodes → Bool
  | .OP_PUSHDATA1 => true
  | .OP_PUSHDATA2 => true
  | .OP_PUSHDATA4 => true
  | _ => false

/-- Width of the PUSHDATA length field (`read_u8` / `read_u16` / `read_u32`
in the source). -/
def pushdataWidth : OpCodes → Nat
  | .OP_PUSHDATA1 => 1
  | .OP_PUSHDATA2 => 2
  | _ => 4

/-- `ScriptBit::from_bytes` translated from the source.  A leading byte in
`1..=75` is a direct-push length; `cursor.read` on a cursor never fails, it
copies as many bytes as remain, so the source returns `data[..len]` (the
available bytes) for a direct push and the zero-initialized `data` buffer
(zero-padded to the declared length) for a PUSHDATA payload.  Only the
PUSHDATA length-field reads (`read_u8` / `read_u16` / `read_u32`), an empty
input, and an unknown leading byte produce errors. -/
def scriptBitFromBytes (bytes : List Nat) : Except String ScriptBit :=
  match bytes with
  | [] => .error "Failed to decode ScriptBit"
  | byte :: rest =>
    if byte ≠ 0 ∧ byte < 76 then
      .ok (.Push (rest.take byte))
    else
      match fromU8Opt byte with
      | some v =>
        if isPushdataOpcode v then
          if rest.length < pushdataWidth v then
            .error "Failed to read PushData length field"
          else
            let dl := leVal (rest.take (pushdataWidth v))
            let avail := rest.drop (pushdataWidth v)
            .ok (.PushData v (avail.take dl ++ List.replicate (dl - avail.length) 0))
        else .ok (.OpCode v)
      | none => .error "Unknown opcode"

/-! ## Claim C5: single-node decode errors -/

/-- C5 counterexample: a direct push declaring 5 bytes with only 2 available
is accepted with the truncated payload, and a PUSHDATA1 declaring 3 bytes
with only 1 available is accepted with the payload zero-padded to the
declared length, contradicting the claim that exhaustion before a declared
length always yields a decode error. -/
theorem script_bit_truncated_push_accepted :
    scriptBitFromBytes [5, 1, 2] = .ok (.Push [1, 2]) ∧
    ([1, 2] : List Nat).length < 5 ∧
    scriptBitFromBytes [76, 3, 9] = .ok (.PushData .OP_PUSHDATA1 [9, 0, 0]) := by
  refine ⟨rfl, by norm_num, rfl⟩

/-- `Except.isOk` on a success value. -/
theorem except_isOk_ok {e a : Type} (x : a) : (Except.ok x : Except e a).isOk = true := rfl

/-- `Except.isOk` on an error value. -/
theorem except_isOk_error {e a : Type} (s : e) : (Except.error s : Except e a).isOk = false := rfl

/-- C5 amended: single-node decoding errors exactly when the input is empty,
when the leading byte is unrecognized, or when a PUSHDATA length field
itself cannot be fully read; a declared payload longer than the remaining
input is not an error (a direct push returns the available bytes and a
PUSHDATA returns data zero-padded to the declared length, per the
counterexample). -/
theorem script_bit_decode_error_iff (bs : List Nat) :
    (scriptBitFromBytes bs).isOk = false ↔
      (bs = [] ∨ ∃ b rest, bs = b :: rest ∧ ¬(b ≠ 0 ∧ b < 76) ∧
        (fromU8Opt b = none ∨
          ∃ v, fromU8Opt b = some v ∧ isPushdataOpcode v = true ∧
            rest.length < pushdataWidth v)) := by
  cases bs with
  | nil => exact iff_of_true rfl (Or.inl rfl)
  | cons b rest =>
    by_cases hp : b ≠ 0 ∧ b < 76
    · have hres : scriptBitFromBytes (b :: rest) = .ok (.Push (rest.take b)) := by
        simp [scriptBitFromBytes, hp]
      rw [hres, except_isOk_ok]
      refine iff_of_false (by simp) ?_
      rintro (h | ⟨b2, rest2, heq, hnp, _⟩)
      · exact List.noConfusion h
      · injection heq with h1 h2
        subst h1
        exact absurd hp hnp
    · cases hv : fromU8Opt b with
      | none =>
        have hres : scriptBitFromBytes (b :: rest) = .error "Unknown opcode" := by
          simp [scriptBitFromBytes, hp, hv]
        rw [hres, except_isOk_error]
        exact iff_of_true rfl (Or.inr ⟨b, rest, rfl, hp, Or.inl hv⟩)
      | some v =>
        by_cases hpd : isPushdataOpcode v = true
        · by_cases hl : rest.length < pushdataWidth v
          · have hres : scriptBitFromBytes (b :: rest) =
                .error "Failed to read PushData length field" := by
              simp [scriptBitFromBytes, hp, hv, hpd, hl]
            rw [hres, except_isOk_error]
            exact iff_of_true rfl (Or.inr ⟨b, rest, rfl, hp, Or.inr ⟨v, hv, hpd, hl⟩⟩)
          · have hres : (scriptBitFromBytes (b :: rest)).isOk = true := by
              simp [scriptBitFromBytes, hp, hv, hpd, hl, except_isOk_ok]
            rw [hres]
            refine iff_of_false (by simp) ?_
            rintro (h | ⟨b2, rest2, heq, hnp, h⟩)
            · exact List.noConfusion h
            · injection heq with h1 h2
              subst h1
              subst h2
              rcases h with h | ⟨v2, hv2, hpd2, hl2⟩
              · rw [hv] at h
                exact Option.noConfusion h
              · rw [hv] at hv2
                injection hv2 with hveq
                subst hveq
                exact hl hl2
        · have hres : scriptBitFromBytes (b :: rest) = .ok (.OpCode v) := by
            simp [scriptBitFromBytes, hp, hv, hpd]
          rw [hres, except_isOk_ok]
          refine iff_of_false (by simp) ?_
          rintro (h | ⟨b2, rest2, heq, hnp, h⟩)
          · exact List.noConfusion h
          · injection heq with h1 h2
            subst h1
            subst h2
            rcases h with h | ⟨v2, hv2, hpd2, hl2⟩
            · rw [hv] at h
              exact Option.noConfusion h
            · rw [hv] at hv2
              injection hv2 with hveq
              subst hveq
              exact hpd hpd2

/-! ## ScriptBit encoding and the whole-script decode driver (claim C2)

`ScriptBit::to_vec` is translated from the source.  The whole-script
tokenizer with its `OP_IF`/`OP_ELSE`/`OP_ENDIF` bracket matcher is part of
the core codec per the specification but its driver is not among the
provided source files, so it is modelled from the spec. -/

mutual

/-- `ScriptBit::to_vec` translated from the source: an opcode is its byte; a
push is its length byte (`len as u8`) then the bytes; a PUSHDATA is the
opcode byte, the little-endian length field whose width matches the opcode
(1/2/4 bytes, with the source defaulting any other opcode to 4), then the
bytes; an `If` node is its code byte, the encoded `pass` branch, `OP_ELSE`
plus the encoded `fail` branch when present, and a closing `OP_ENDIF`; a
coinbase bit is its bytes unchanged. -/
def ScriptBit.to_vec : ScriptBit → List Nat
  | .OpCode code => [toU8 code]
  | .Push bytes => bytes.length % 256 :: bytes
  | .PushData code bytes =>
      toU8 code ::
        ((match code with
          | .OP_PUSHDATA1 => leBytes 1 bytes.length
          | .OP_PUSHDATA2 => leBytes 2 bytes.length
          | _ => leBytes 4 bytes.length) ++ bytes)
  | .If code pass fail =>
      toU8 code ::
        (encodeList pass ++
          (match fail with
           | none => []
           | some f => toU8 OpCodes.OP_ELSE :: encodeList f) ++
          [toU8 OpCodes.OP_ENDIF])
  | .Coinbase bytes => bytes

/-- Encoding of a script, the concatenation of its bits' encodings. -/
def encodeList : List ScriptBit → List Nat
  | [] => []
  | bit :: more => bit.to_vec ++ encodeList more

end

/-- One parsed non-bracket node together with the unconsumed remainder of
the input: `ScriptBit::from_bytes` on `byte :: rest` (same branches as
`scriptBitFromBytes`) plus the cursor advance of the spec's iterated
single-node decode. -/
def decodeOneWithRest (byte : Nat) (rest : List Nat) :
    Except String (ScriptBit × List Nat) :=
  if byte ≠ 0 ∧ byte < 76 then
    .ok (.Push (rest.take byte), rest.drop byte)
  else
    match fromU8Opt byte with
    | some v =>
      if isPushdataOpcode v then
        if rest.length < pushdataWidth v then
          .error "Failed to read PushData length field"
        else
          let dl := leVal (rest.take (pushdataWidth v))
          let avail := rest.drop (pushdataWidth v)
          .ok (.PushData v (avail.take dl ++ List.replicate (dl - avail.length) 0),
               avail.drop dl)
      else .ok (.OpCode v, rest)
    | none => .error "Unknown opcode"

/-- Modelled from the spec: the whole-script tokenizer driver (not among the
provided source files; spec section 4.3: iterated single-node decode with a
stack-based `OP_IF`/`OP_ELSE`/`OP_ENDIF` bracket matcher building `If`
nodes, erroring on an unmatched `OP_IF`).  Parses nodes until the input is
exhausted or an `OP_ELSE`/`OP_ENDIF` terminator surfaces at the current
nesting level; returns the parsed nodes, the terminator byte if one stopped
the scan, and the unconsumed remainder.  `fuel` bounds the recursion; every
recursive call is on a strictly shorter input, so any fuel above the input
length is enough. -/
def parseMany : Nat → List Nat → Except String (List ScriptBit × Option Nat × List Nat)
  | 0, _ => .error "Out of fuel"
  | _ + 1, [] => .ok ([], none, [])
  | fuel + 1, b :: rest =>
    if b = toU8 OpCodes.OP_ELSE ∨ b = toU8 OpCodes.OP_ENDIF then
      .ok ([], some b, rest)
    else if b = toU8 OpCodes.OP_IF ∨ b = toU8 OpCodes.OP_NOTIF then
      (parseMany fuel rest).bind (fun (pass, stop, rest2) =>
        match stop with
        | none => .error "Unmatched OP_IF: missing OP_ENDIF"
        | some s =>
          if s = toU8 OpCodes.OP_ENDIF then
            (parseMany fuel rest2).bind (fun (items, stop3, rest3) =>
              .ok (.If (fromU8 b) pass none :: items, stop3, rest3))
          else
            (parseMany fuel rest2).bind (fun (failBits, stop3, rest3) =>
              match stop3 with
              | none => .error "Unmatched OP_IF: missing OP_ENDIF"
              | some s3 =>
                if s3 = toU8 OpCodes.OP_ENDIF then
                  (parseMany fuel rest3).bind (fun (items, stop4, rest4) =>
                    .ok (.If (fromU8 b) pass (some failBits) :: items, stop4, rest4))
                else .error "Unmatched OP_IF: second OP_ELSE"))
    else
      (decodeOneWithRest b rest).bind (fun (bit, rest2) =>
        (parseMany fuel rest2).bind (fun (items, stop, rest3) =>
          .ok (bit :: items, stop, rest3)))

/-- Modelled from the spec: tokenizing a whole script is the iterated
application of single-node decode until the input is exhausted, with a stray
`OP_ELSE`/`OP_ENDIF` at the top level an error. -/
def parseScript (bs : List Nat) : Except String (List ScriptBit) :=
  match parseMany (bs.length + 1) bs with
  | .error e => .error e
  | .ok (items, none, _) => .ok items
  | .ok (_, some _, _) => .error "Stray OP_ELSE or OP_ENDIF"

mutual

/-- Syntactic validity of one `ScriptBit` node for the round-trip claim: a
bare opcode must not be one of the bytes the decoder treats specially
(direct-push lengths cannot occur as discriminants; the PUSHDATA opcodes,
the `If` openers `OP_IF`/`OP_NOTIF`, and `OP_ELSE`/`OP_ENDIF` are excluded);
a push must carry 1 to 75 bytes; a PUSHDATA's payload must fit its length
field; an `If` node's code must be an opener and its branches valid; a
`Coinbase` node has no wire syntax of its own and is not valid inside a
parsed script. -/
def wfBit : ScriptBit → Bool
  | .OpCode code => decide (toU8 code ∉ ([76, 77, 78, 99, 100, 103, 104] : List Nat))
  | .Push bytes => decide (1 ≤ bytes.length) && decide (bytes.length ≤ 75)
  | .PushData code bytes =>
      (decide (code = OpCodes.OP_PUSHDATA1) && decide (bytes.length < 2 ^ 8)) ||
      (decide (code = OpCodes.OP_PUSHDATA2) && decide (bytes.length < 2 ^ 16)) ||
      (decide (code = OpCodes.OP_PUSHDATA4) && decide (bytes.length < 2 ^ 32))
  | .If code pass fail =>
      (decide (code = OpCodes.OP_IF) || decide (code = OpCodes.OP_NOTIF)) &&
        wfList pass && wfOptList fail
  | .Coinbase _ => false

/-- Syntactic validity of an optional `fail` branch. -/
def wfOptList : Option (List ScriptBit) → Bool
  | none => true
  | some f => wfList f

/-- Syntactic validity of a `ScriptBit` sequence. -/
def wfList : List ScriptBit → Bool
  | [] => true
  | bit :: more => wfBit bit && wfList more

end

/-! ### Helper lemmas for the round-trip proof -/

theorem take_len_append {a : Type} (l1 l2 : List a) :
    (l1 ++ l2).take l1.length = l1 := by
  induction l1 with
  | nil => rfl
  | cons x l ih => simp [ih]

theorem drop_len_append {a : Type} (l1 l2 : List a) :
    (l1 ++ l2).drop l1.length = l2 := by
  induction l1 with
  | nil => rfl
  | cons x l ih => simp [ih]

/-- Every discriminant is `0` or at least `76` (there is no variant in the
direct-push byte range `1..=75`). -/
theorem toU8_zero_or_ge (c : OpCodes) : toU8 c = 0 ∨ 76 ≤ toU8 c := by
  cases c <;> simp [toU8]

/-- Looking a variant's own discriminant back up recovers the variant. -/
theorem fromU8Opt_toU8 (c : OpCodes) : fromU8Opt (toU8 c) = some c := by
  cases c <;> rfl

/-- The PUSHDATA opcodes are exactly the discriminants `76`, `77`, `78`. -/
theorem isPushdataOpcode_iff (c : OpCodes) :
    isPushdataOpcode c = true ↔ toU8 c ∈ ([76, 77, 78] : List Nat) := by
  cases c <;> simp [isPushdataOpcode, toU8]

/-- The remainder returned by single-node decode is a suffix-length bound:
it never exceeds the input remainder. -/
theorem decodeOneWithRest_rest_le (b : Nat) (rest : List Nat) (bit : ScriptBit)
    (rest2 : List Nat) (h : decodeOneWithRest b rest = .ok (bit, rest2)) :
    rest2.length ≤ rest.length := by
  unfold decodeOneWithRest at h
  by_cases hp : b ≠ 0 ∧ b < 76
  · rw [if_pos hp] at h
    simp only [Except.ok.injEq, Prod.mk.injEq] at h
    obtain ⟨-, h2⟩ := h
    subst h2
    simp
  · rw [if_neg hp] at h
    cases hv : fromU8Opt b with
    | none =>
      simp only [hv] at h
      exact absurd h (by simp)
    | some v =>
      simp only [hv] at h
      by_cases hpd : isPushdataOpcode v = true
      · rw [if_pos hpd] at h
        by_cases hl : rest.length < pushdataWidth v
        · rw [if_pos hl] at h
          exact absurd h (by simp)
        · rw [if_neg hl] at h
          simp only [Except.ok.injEq, Prod.mk.injEq] at h
          obtain ⟨-, h2⟩ := h
          subst h2
          simp only [List.length_drop]
          omega
      · rw [if_neg hpd] at h
        simp only [Except.ok.injEq, Prod.mk.injEq] at h
        obtain ⟨-, h2⟩ := h
        subst h2
        exact Nat.le_refl _

/-- `Except.bind` on a success value. -/
theorem except_bind_ok {e a b : Type} (x : a) (f : a → Except e b) :
    (Except.ok x : Except e a).bind f = f x := rfl

/-- `Except.bind` on an error value. -/
theorem except_bind_error {e a b : Type} (s : e) (f : a → Except e b) :
    (Except.error s : Except e a).bind f = .error s := rfl

/-- Unfolding `parseMany` at zero fuel. -/
theorem parseMany_zero (bs : List Nat) :
    parseMany 0 bs = .error "Out of fuel" := rfl

/-- Unfolding `parseMany` on exhausted input. -/
theorem parseMany_nil (fuel : Nat) :
    parseMany (fuel + 1) [] = .ok ([], none, []) := rfl

/-- Unfolding `parseMany` one step on a nonempty input. -/
theorem parseMany_cons (fuel b : Nat) (rest : List Nat) :
    parseMany (fuel + 1) (b :: rest) =
      if b = toU8 OpCodes.OP_ELSE ∨ b = toU8 OpCodes.OP_ENDIF then
        .ok ([], some b, rest)
      else if b = toU8 OpCodes.OP_IF ∨ b = toU8 OpCodes.OP_NOTIF then
        (parseMany fuel rest).bind (fun (pass, stop, rest2) =>
          match stop with
          | none => .error "Unmatched OP_IF: missing OP_ENDIF"
          | some s =>
            if s = toU8 OpCodes.OP_ENDIF then
              (parseMany fuel rest2).bind (fun (items, stop3, rest3) =>
                .ok (.If (fromU8 b) pass none :: items, stop3, rest3))
            else
              (parseMany fuel rest2).bind (fun (failBits, stop3, rest3) =>
                match stop3 with
                | none => .error "Unmatched OP_IF: missing OP_ENDIF"
                | some s3 =>
                  if s3 = toU8 OpCodes.OP_ENDIF then
                    (parseMany fuel rest3).bind (fun (items, stop4, rest4) =>
                      .ok (.If (fromU8 b) pass (some failBits) :: items, stop4, rest4))
                  else .error "Unmatched OP_IF: second OP_ELSE"))
      else
        (decodeOneWithRest b rest).bind (fun (bit, rest2) =>
          (parseMany fuel rest2).bind (fun (items, stop, rest3) =>
            .ok (bit :: items, stop, rest3))) := rfl

/-- A successful `parseMany` consumes at least the terminator byte when it
reports one, and never produces a remainder longer than its input. -/
theorem parseMany_rest_le (fuel : Nat) :
    ∀ (bs : List Nat) (items : List ScriptBit) (stop : Option Nat)
      (rest : List Nat),
    parseMany fuel bs = .ok (items, stop, rest) →
    rest.length + (match stop with | some _ => 1 | none => 0) ≤ bs.length := by
  induction fuel with
  | zero =>
    intro bs items stop rest h
    rw [parseMany_zero] at h
    exact absurd h (by simp)
  | succ fuel ih =>
    intro bs items stop rest h
    cases bs with
    | nil =>
      rw [parseMany_nil] at h
      simp only [Except.ok.injEq, Prod.mk.injEq] at h
      obtain ⟨-, h2, h3⟩ := h
      subst h2
      subst h3
      simp
    | cons b rest0 =>
      rw [parseMany_cons] at h
      by_cases hstop : b = toU8 OpCodes.OP_ELSE ∨ b = toU8 OpCodes.OP_ENDIF
      · rw [if_pos hstop] at h
        simp only [Except.ok.injEq, Prod.mk.injEq] at h
        obtain ⟨-, h2, h3⟩ := h
        subst h2
        subst h3
        simp
      · rw [if_neg hstop] at h
        by_cases hif : b = toU8 OpCodes.OP_IF ∨ b = toU8 OpCodes.OP_NOTIF
        · rw [if_pos hif] at h
          cases h1 : parseMany fuel rest0 with
          | error e =>
            simp only [h1, except_bind_error] at h
            exact absurd h (by simp)
          | ok t1 =>
            obtain ⟨pass, stop1, rest1⟩ := t1
            simp only [h1, except_bind_ok] at h
            have hb1 := ih rest0 pass stop1 rest1 h1
            cases stop1 with
            | none =>
              simp only at h
              exact absurd h (by simp)
            | some s =>
              simp only at h hb1
              by_cases hs : s = toU8 OpCodes.OP_ENDIF
              · rw [if_pos hs] at h
                cases h2 : parseMany fuel rest1 with
                | error e =>
                  simp only [h2, except_bind_error] at h
                  exact absurd h (by simp)
                | ok t2 =>
                  obtain ⟨items2, stop2, rest2⟩ := t2
                  simp only [h2, except_bind_ok] at h
                  have hb2 := ih rest1 items2 stop2 rest2 h2
                  simp only [Except.ok.injEq, Prod.mk.injEq] at h
                  obtain ⟨-, h3, h4⟩ := h
                  subst h3
                  subst h4
                  simp only [List.length_cons]
                  omega
              · rw [if_neg hs] at h
                cases h2 : parseMany fuel rest1 with
                | error e =>
                  simp only [h2, except_bind_error] at h
                  exact absurd h (by simp)
                | ok t2 =>
                  obtain ⟨failBits, stop2, rest2⟩ := t2
                  simp only [h2, except_bind_ok] at h
                  have hb2 := ih rest1 failBits stop2 rest2 h2
                  cases stop2 with
                  | none =>
                    simp only at h
                    exact absurd h (by simp)
                  | some s3 =>
                    simp only at h hb2
                    by_cases hs3 : s3 = toU8 OpCodes.OP_ENDIF
                    · rw [if_pos hs3] at h
                      cases h3 : parseMany fuel rest2 with
                      | error e =>
                        simp only [h3, except_bind_error] at h
                        exact absurd h (by simp)
                      | ok t3 =>
                        obtain ⟨items3, stop3, rest3⟩ := t3
                        simp only [h3, except_bind_ok] at h
                        have hb3 := ih rest2 items3 stop3 rest3 h3
                        simp only [Except.ok.injEq, Prod.mk.injEq] at h
                        obtain ⟨-, h4, h5⟩ := h
                        subst h4
                        subst h5
                        simp only [List.length_cons]
                        omega
                    · rw [if_neg hs3] at h
                      exact absurd h (by simp)
        · rw [if_neg hif] at h
          cases h1 : decodeOneWithRest b rest0 with
          | error e =>
            simp only [h1, except_bind_error] at h
            exact absurd h (by simp)
          | ok t1 =>
            obtain ⟨bit, rest1⟩ := t1
            simp only [h1, except_bind_ok] at h
            have hb1 := decodeOneWithRest_rest_le b rest0 bit rest1 h1
            cases h2 : parseMany fuel rest1 with
            | error e =>
              simp only [h2, except_bind_error] at h
              exact absurd h (by simp)
            | ok t2 =>
              obtain ⟨items2, stop2, rest2⟩ := t2
              simp only [h2, except_bind_ok] at h
              have hb2 := ih rest1 items2 stop2 rest2 h2
              simp only [Except.ok.injEq, Prod.mk.injEq] at h
              obtain ⟨-, h3, h4⟩ := h
              subst h3
              subst h4
              simp only [List.length_cons]
              omega

/-- `parseMany` does not depend on the fuel once the fuel exceeds the input
length (every recursive call is on a strictly shorter input). -/
theorem parseMany_fuel_irrel (n : Nat) :
    ∀ (f1 f2 : Nat) (bs : List Nat), bs.length ≤ n → bs.length < f1 →
      bs.length < f2 → parseMany f1 bs = parseMany f2 bs := by
  induction n with
  | zero =>
    intro f1 f2 bs hn h1 h2
    have hbs : bs = [] := List.eq_nil_of_length_eq_zero (by omega)
    subst hbs
    obtain ⟨a, rfl⟩ : ∃ a, f1 = a + 1 := ⟨f1 - 1, by omega⟩
    obtain ⟨c, rfl⟩ : ∃ c, f2 = c + 1 := ⟨f2 - 1, by omega⟩
    rw [parseMany_nil, parseMany_nil]
  | succ n ih =>
    intro f1 f2 bs hn h1 h2
    cases bs with
    | nil =>
      obtain ⟨a, rfl⟩ : ∃ a, f1 = a + 1 := ⟨f1 - 1, by omega⟩
      obtain ⟨c, rfl⟩ : ∃ c, f2 = c + 1 := ⟨f2 - 1, by omega⟩
      rw [parseMany_nil, parseMany_nil]
    | cons b rest0 =>
      obtain ⟨a, rfl⟩ : ∃ a, f1 = a + 1 := ⟨f1 - 1, by omega⟩
      obtain ⟨c, rfl⟩ : ∃ c, f2 = c + 1 := ⟨f2 - 1, by omega⟩
      simp only [List.length_cons] at hn h1 h2
      rw [parseMany_cons, parseMany_cons]
      by_cases hstop : b = toU8 OpCodes.OP_ELSE ∨ b = toU8 OpCodes.OP_ENDIF
      · simp only [if_pos hstop]
      · simp only [if_neg hstop]
        by_cases hif : b = toU8 OpCodes.OP_IF ∨ b = toU8 OpCodes.OP_NOTIF
        · simp only [if_pos hif]
          have hr1 : parseMany a rest0 = parseMany c rest0 :=
            ih a c rest0 (by omega) (by omega) (by omega)
          rw [hr1]
          cases hp1 : parseMany c rest0 with
          | error e => simp only [hp1, except_bind_error]
          | ok t1 =>
            obtain ⟨pass, stop1, rest1⟩ := t1
            have hb1 := parseMany_rest_le c rest0 pass stop1 rest1 hp1
            simp only [except_bind_ok]
            cases stop1 with
            | none => simp only
            | some s =>
              simp only at hb1 ⊢
              by_cases hs : s = toU8 OpCodes.OP_ENDIF
              · simp only [if_pos hs]
                have hr2 : parseMany a rest1 = parseMany c rest1 :=
                  ih a c rest1 (by omega) (by omega) (by omega)
                rw [hr2]
              · simp only [if_neg hs]
                have hr2 : parseMany a rest1 = parseMany c rest1 :=
                  ih a c rest1 (by omega) (by omega) (by omega)
                rw [hr2]
                cases hp2 : parseMany c rest1 with
                | error e => simp only [hp2, except_bind_error]
                | ok t2 =>
                  obtain ⟨failBits, stop2, rest2⟩ := t2
                  have hb2 := parseMany_rest_le c rest1 failBits stop2 rest2 hp2
                  simp only [except_bind_ok]
                  cases stop2 with
                  | none => simp only
                  | some s3 =>
                    simp only at hb2 ⊢
                    by_cases hs3 : s3 = toU8 OpCodes.OP_ENDIF
                    · simp only [if_pos hs3]
                      have hr3 : parseMany a rest2 = parseMany c rest2 :=
                        ih a c rest2 (by omega) (by omega) (by omega)
                      rw [hr3]
                    · simp only [if_neg hs3]
        · simp only [if_neg hif]
          cases hd : decodeOneWithRest b rest0 with
          | error e => simp only [hd, except_bind_error]
          | ok t1 =>
            obtain ⟨bit, rest1⟩ := t1
            have hb1 := decodeOneWithRest_rest_le b rest0 bit rest1 hd
            simp only [hd, except_bind_ok]
            have hr2 : parseMany a rest1 = parseMany c rest1 :=
              ih a c rest1 (by omega) (by omega) (by omega)
            rw [hr2]

/-- Prepending already-parsed nodes to a parse result. -/
def prependResult (items : List ScriptBit) :
    Except String (List ScriptBit × Option Nat × List Nat) →
    Except String (List ScriptBit × Option Nat × List Nat)
  | .ok (more, stop, rest) => .ok (items ++ more, stop, rest)
  | .error e => .error e

/-- Single-node decode of a well-formed bare opcode byte consumes exactly
that byte. -/
theorem decodeOneWithRest_opcode (code : OpCodes) (z : List Nat)
    (hmem : toU8 code ∉ ([76, 77, 78, 99, 100, 103, 104] : List Nat)) :
    decodeOneWithRest (toU8 code) z = .ok (.OpCode code, z) := by
  simp only [List.mem_cons, List.not_mem_nil, or_false, not_or] at hmem
  have hb : ¬(toU8 code ≠ 0 ∧ toU8 code < 76) := by
    rcases toU8_zero_or_ge code with h | h <;> omega
  have hpd : ¬(isPushdataOpcode code = true) := by
    intro hx
    have hx2 := (isPushdataOpcode_iff code).mp hx
    simp only [List.mem_cons, List.not_mem_nil, or_false] at hx2
    rcases hx2 with h | h | h <;> simp [h] at hmem
  simp only [decodeOneWithRest, if_neg hb, fromU8Opt_toU8, if_neg hpd]

/-- Single-node decode of a direct push consumes its length byte and exactly
its payload. -/
theorem decodeOneWithRest_push (bytes z : List Nat) (h1 : 1 ≤ bytes.length)
    (h2 : bytes.length ≤ 75) :
    decodeOneWithRest bytes.length (bytes ++ z) = .ok (.Push bytes, z) := by
  have hb : bytes.length ≠ 0 ∧ bytes.length < 76 := by omega
  simp only [decodeOneWithRest, if_pos hb]
  rw [show (bytes ++ z).take bytes.length = bytes from take_len_append bytes z,
      show (bytes ++ z).drop bytes.length = z from drop_len_append bytes z]

/-- Single-node decode of a PUSHDATA whose payload fits its length field
consumes the opcode byte, the length field and exactly the payload. -/
theorem decodeOneWithRest_pushdata (code : OpCodes) (bytes z : List Nat)
    (hcode : isPushdataOpcode code = true)
    (hlen : bytes.length < 2 ^ (8 * pushdataWidth code)) :
    decodeOneWithRest (toU8 code)
        (leBytes (pushdataWidth code) bytes.length ++ (bytes ++ z)) =
      .ok (.PushData code bytes, z) := by
  have hx2 := (isPushdataOpcode_iff code).mp hcode
  simp only [List.mem_cons, List.not_mem_nil, or_false] at hx2
  have hb : ¬(toU8 code ≠ 0 ∧ toU8 code < 76) := by
    rcases hx2 with h | h | h <;> omega
  have ht : List.take (pushdataWidth code)
      (leBytes (pushdataWidth code) bytes.length ++ (bytes ++ z)) =
      leBytes (pushdataWidth code) bytes.length := by
    have h := take_len_append (leBytes (pushdataWidth code) bytes.length) (bytes ++ z)
    rwa [leBytes_length] at h
  have hd : List.drop (pushdataWidth code)
      (leBytes (pushdataWidth code) bytes.length ++ (bytes ++ z)) = bytes ++ z := by
    have h := drop_len_append (leBytes (pushdataWidth code) bytes.length) (bytes ++ z)
    rwa [leBytes_length] at h
  simp only [decodeOneWithRest, if_neg hb, fromU8Opt_toU8, hcode, if_true, ht, hd,
    leVal_leBytes _ _ hlen, take_len_append, drop_len_append, List.length_append]
  rw [if_neg (show ¬((leBytes (pushdataWidth code) bytes.length).length +
        (bytes.length + z.length) < pushdataWidth code) from by
      simp only [leBytes_length]; omega)]
  rw [show bytes.length - (bytes.length + z.length) = 0 from by omega]
  simp only [List.replicate, List.append_nil]

/-- `to_vec` on a bare opcode. -/
theorem to_vec_opcode (code : OpCodes) :
    (ScriptBit.OpCode code).to_vec = [toU8 code] := rfl

/-- `to_vec` on a direct push. -/
theorem to_vec_push (bytes : List Nat) :
    (ScriptBit.Push bytes).to_vec = bytes.length % 256 :: bytes := rfl

/-- `to_vec` on a PUSHDATA node, with the length-field width named (the
source's wildcard arm and `pushdataWidth`'s wildcard agree on every
opcode). -/
theorem to_vec_pushdata_width (code : OpCodes) (bytes : List Nat) :
    (ScriptBit.PushData code bytes).to_vec =
      toU8 code :: (leBytes (pushdataWidth code) bytes.length ++ bytes) := by
  cases code <;> rfl

/-- `to_vec` on an `If` node without a `fail` branch. -/
theorem to_vec_if_none (code : OpCodes) (pass : List ScriptBit) :
    (ScriptBit.If code pass none).to_vec =
      toU8 code :: (encodeList pass ++ [toU8 OpCodes.OP_ENDIF]) := by
  simp [ScriptBit.to_vec]

/-- `to_vec` on an `If` node with a `fail` branch. -/
theorem to_vec_if_some (code : OpCodes) (pass fl : List ScriptBit) :
    (ScriptBit.If code pass (some fl)).to_vec =
      toU8 code ::
        (encodeList pass ++
          ((toU8 OpCodes.OP_ELSE :: encodeList fl) ++ [toU8 OpCodes.OP_ENDIF])) := by
  simp [ScriptBit.to_vec]

/-- `encodeList` on an empty script. -/
theorem encodeList_nil : encodeList [] = [] := rfl

/-- `encodeList` on a nonempty script. -/
theorem encodeList_cons (bit : ScriptBit) (more : List ScriptBit) :
    encodeList (bit :: more) = bit.to_vec ++ encodeList more := rfl

/-- `prependResult` on an error. -/
theorem prependResult_error (items : List ScriptBit) (e : String) :
    prependResult items (.error e) = .error e := rfl

/-- `prependResult` on a success. -/
theorem prependResult_ok (items more : List ScriptBit) (stop : Option Nat)
    (rest : List Nat) :
    prependResult items (.ok (more, stop, rest)) = .ok (items ++ more, stop, rest) := rfl

set_option maxHeartbeats 1000000 in
theorem parseMany_encodeList_aux (n : Nat) :
    ∀ (items : List ScriptBit), sizeOf items ≤ n → wfList items = true →
      ∀ (tail : List Nat) (fuel : Nat),
        (encodeList items ++ tail).length < fuel →
        parseMany fuel (encodeList items ++ tail) =
          prependResult items (parseMany fuel tail) := by
  induction n with
  | zero =>
    intro items hsz
    exact absurd hsz (by cases items <;> simp)
  | succ n ih =>
    intro items hsz hwf tail fuel hfuel
    cases items with
    | nil =>
      simp only [encodeList_nil, List.nil_append]
      cases hr : parseMany fuel tail with
      | error e => rw [prependResult_error]
      | ok t =>
        obtain ⟨m, s, r⟩ := t
        rw [prependResult_ok]
        simp
    | cons bit more =>
      have hwf2 : wfBit bit = true ∧ wfList more = true := by
        simpa [wfList, Bool.and_eq_true] using hwf
      obtain ⟨hwfb, hwfm⟩ := hwf2
      have hszm : sizeOf more ≤ n := by
        simp only [List.cons.sizeOf_spec] at hsz
        omega
      obtain ⟨f, rfl⟩ : ∃ f, fuel = f + 1 := ⟨fuel - 1, by omega⟩
      cases bit with
      | Coinbase bytes => simp [wfBit] at hwfb
      | OpCode code =>
        have hmem : toU8 code ∉ ([76, 77, 78, 99, 100, 103, 104] : List Nat) := by
          simpa [wfBit, decide_eq_true_eq] using hwfb
        have hmemn : toU8 code ≠ 76 ∧ toU8 code ≠ 77 ∧ toU8 code ≠ 78 ∧
            toU8 code ≠ 99 ∧ toU8 code ≠ 100 ∧ toU8 code ≠ 103 ∧
            toU8 code ≠ 104 := by
          simpa [List.mem_cons, not_or] using hmem
        obtain ⟨m1, m2, m3, m4, m5, m6, m7⟩ := hmemn
        have hc1 : ¬(toU8 code = toU8 OpCodes.OP_ELSE ∨
            toU8 code = toU8 OpCodes.OP_ENDIF) := by
          rw [show toU8 OpCodes.OP_ELSE = 103 from rfl,
            show toU8 OpCodes.OP_ENDIF = 104 from rfl]
          omega
        have hc2 : ¬(toU8 code = toU8 OpCodes.OP_IF ∨
            toU8 code = toU8 OpCodes.OP_NOTIF) := by
          rw [show toU8 OpCodes.OP_IF = 99 from rfl,
            show toU8 OpCodes.OP_NOTIF = 100 from rfl]
          omega
        simp only [encodeList_cons, to_vec_opcode, List.cons_append,
          List.append_assoc, List.singleton_append, List.nil_append] at hfuel ⊢
        rw [parseMany_cons, if_neg hc1, if_neg hc2]
        simp only [decodeOneWithRest_opcode code (encodeList more ++ tail) hmem,
          except_bind_ok]
        have hlen : (encodeList more).length + tail.length < f := by
          simp only [List.length_cons, List.length_append] at hfuel
          omega
        rw [ih more hszm hwfm tail f (by simp only [List.length_append]; omega)]
        rw [parseMany_fuel_irrel tail.length f (f + 1) tail le_rfl (by omega)
          (by omega)]
        cases hr : parseMany (f + 1) tail with
        | error e => simp only [hr, prependResult_error, except_bind_error]
        | ok t =>
          obtain ⟨m, s, r⟩ := t
          simp only [hr, prependResult_ok, except_bind_ok, List.cons_append]
      | Push bytes =>
        have hpb : 1 ≤ bytes.length ∧ bytes.length ≤ 75 := by
          simpa [wfBit, Bool.and_eq_true, decide_eq_true_eq] using hwfb
        obtain ⟨hp1, hp75⟩ := hpb
        have hmod : bytes.length % 256 = bytes.length :=
          Nat.mod_eq_of_lt (by omega)
        have hc1 : ¬(bytes.length = toU8 OpCodes.OP_ELSE ∨
            bytes.length = toU8 OpCodes.OP_ENDIF) := by
          rw [show toU8 OpCodes.OP_ELSE = 103 from rfl,
            show toU8 OpCodes.OP_ENDIF = 104 from rfl]
          omega
        have hc2 : ¬(bytes.length = toU8 OpCodes.OP_IF ∨
            bytes.length = toU8 OpCodes.OP_NOTIF) := by
          rw [show toU8 OpCodes.OP_IF = 99 from rfl,
            show toU8 OpCodes.OP_NOTIF = 100 from rfl]
          omega
        simp only [encodeList_cons, to_vec_push, hmod, List.cons_append,
          List.append_assoc] at hfuel ⊢
        rw [parseMany_cons, if_neg hc1, if_neg hc2]
        simp only [decodeOneWithRest_push bytes (encodeList more ++ tail) hp1 hp75,
          except_bind_ok]
        have hlen : (encodeList more).length + tail.length < f := by
          simp only [List.length_cons, List.length_append] at hfuel
          omega
        rw [ih more hszm hwfm tail f (by simp only [List.length_append]; omega)]
        rw [parseMany_fuel_irrel tail.length f (f + 1) tail le_rfl (by omega)
          (by omega)]
        cases hr : parseMany (f + 1) tail with
        | error e => simp only [hr, prependResult_error, except_bind_error]
        | ok t =>
          obtain ⟨m, s, r⟩ := t
          simp only [hr, prependResult_ok, except_bind_ok, List.cons_append]
      | PushData code bytes =>
        have hcase : isPushdataOpcode code = true ∧
            bytes.length < 2 ^ (8 * pushdataWidth code) := by
          simp only [wfBit, Bool.or_eq_true, Bool.and_eq_true,
            decide_eq_true_eq] at hwfb
          rcases hwfb with (⟨h, hl⟩ | ⟨h, hl⟩) | ⟨h, hl⟩ <;> subst h <;>
            exact ⟨rfl, by simpa [pushdataWidth] using hl⟩
        obtain ⟨hcode, hlenb⟩ := hcase
        have hx2 := (isPushdataOpcode_iff code).mp hcode
        simp only [List.mem_cons, List.not_mem_nil, or_false] at hx2
        have hc1 : ¬(toU8 code = toU8 OpCodes.OP_ELSE ∨
            toU8 code = toU8 OpCodes.OP_ENDIF) := by
          rw [show toU8 OpCodes.OP_ELSE = 103 from rfl,
            show toU8 OpCodes.OP_ENDIF = 104 from rfl]
          omega
        have hc2 : ¬(toU8 code = toU8 OpCodes.OP_IF ∨
            toU8 code = toU8 OpCodes.OP_NOTIF) := by
          rw [show toU8 OpCodes.OP_IF = 99 from rfl,
            show toU8 OpCodes.OP_NOTIF = 100 from rfl]
          omega
        simp only [encodeList_cons, to_vec_pushdata_width, List.cons_append,
          List.append_assoc] at hfuel ⊢
        rw [parseMany_cons, if_neg hc1, if_neg hc2]
        simp only [decodeOneWithRest_pushdata code bytes (encodeList more ++ tail)
          hcode hlenb, except_bind_ok]
        have hlen : (encodeList more).length + tail.length < f := by
          simp only [List.length_cons, List.length_append, leBytes_length] at hfuel
          omega
        rw [ih more hszm hwfm tail f (by simp only [List.length_append]; omega)]
        rw [parseMany_fuel_irrel tail.length f (f + 1) tail le_rfl (by omega)
          (by omega)]
        cases hr : parseMany (f + 1) tail with
        | error e => simp only [hr, prependResult_error, except_bind_error]
        | ok t =>
          obtain ⟨m, s, r⟩ := t
          simp only [hr, prependResult_ok, except_bind_ok, List.cons_append]
      | If code pass fail =>
        have hwfb2 := hwfb
        simp only [wfBit, Bool.and_eq_true, Bool.or_eq_true,
          decide_eq_true_eq] at hwfb2
        obtain ⟨⟨hcode, hpass⟩, hfailm⟩ := hwfb2
        have hb99 : toU8 code = 99 ∨ toU8 code = 100 := by
          rcases hcode with h | h <;> subst h <;> simp [toU8]
        have hfid : fromU8 (toU8 code) = code := by
          rcases hcode with h | h <;> subst h <;> rfl
        have hc1 : ¬(toU8 code = toU8 OpCodes.OP_ELSE ∨
            toU8 code = toU8 OpCodes.OP_ENDIF) := by
          rw [show toU8 OpCodes.OP_ELSE = 103 from rfl,
            show toU8 OpCodes.OP_ENDIF = 104 from rfl]
          omega
        have hc2 : toU8 code = toU8 OpCodes.OP_IF ∨
            toU8 code = toU8 OpCodes.OP_NOTIF := by
          rcases hcode with h | h <;> subst h
          · exact Or.inl rfl
          · exact Or.inr rfl
        have hszp : sizeOf pass ≤ n := by
          simp only [List.cons.sizeOf_spec, ScriptBit.If.sizeOf_spec] at hsz
          omega
        cases fail with
        | none =>
          simp only [encodeList_cons, to_vec_if_none, List.cons_append,
            List.append_assoc, List.singleton_append, List.nil_append] at hfuel ⊢
          rw [parseMany_cons, if_neg hc1, if_pos hc2]
          obtain ⟨g, rfl⟩ : ∃ g, f = g + 1 := ⟨f - 1, by
            simp only [List.length_cons, List.length_append] at hfuel
            omega⟩
          rw [ih pass hszp hpass
            (toU8 OpCodes.OP_ENDIF :: (encodeList more ++ tail)) (g + 1) (by
              simp only [List.length_cons, List.length_append] at hfuel ⊢
              omega)]
          rw [parseMany_cons, if_pos (Or.inr rfl), prependResult_ok]
          simp only [List.append_nil, except_bind_ok]
          rw [if_pos trivial, hfid]
          have hlen : (encodeList more).length + tail.length < g + 1 := by
            simp only [List.length_cons, List.length_append] at hfuel
            omega
          rw [ih more hszm hwfm tail (g + 1)
            (by simp only [List.length_append]; omega)]
          rw [parseMany_fuel_irrel tail.length (g + 1) (g + 1 + 1) tail le_rfl
            (by omega) (by omega)]
          cases hr : parseMany (g + 1 + 1) tail with
          | error e => simp only [hr, prependResult_error, except_bind_error]
          | ok t =>
            obtain ⟨m, s, r⟩ := t
            simp only [hr, prependResult_ok, except_bind_ok, List.cons_append]
        | some fl =>
          have hfl : wfList fl = true := by simpa [wfOptList] using hfailm
          have hszf : sizeOf fl ≤ n := by
            simp only [List.cons.sizeOf_spec, ScriptBit.If.sizeOf_spec,
              Option.some.sizeOf_spec] at hsz
            omega
          simp only [encodeList_cons, to_vec_if_some, List.cons_append,
            List.append_assoc, List.singleton_append, List.nil_append] at hfuel ⊢
          rw [parseMany_cons, if_neg hc1, if_pos hc2]
          obtain ⟨g, rfl⟩ : ∃ g, f = g + 1 := ⟨f - 1, by
            simp only [List.length_cons, List.length_append] at hfuel
            omega⟩
          rw [ih pass hszp hpass
            (toU8 OpCodes.OP_ELSE ::
              (encodeList fl ++ (toU8 OpCodes.OP_ENDIF :: (encodeList more ++ tail))))
            (g + 1) (by
              simp only [List.length_cons, List.length_append] at hfuel ⊢
              omega)]
          rw [parseMany_cons, if_pos (Or.inl rfl), prependResult_ok]
          simp only [List.append_nil, except_bind_ok]
          rw [if_neg (show ¬(toU8 OpCodes.OP_ELSE = toU8 OpCodes.OP_ENDIF) from
            by decide)]
          rw [ih fl hszf hfl
            (toU8 OpCodes.OP_ENDIF :: (encodeList more ++ tail)) (g + 1) (by
              simp only [List.length_cons, List.length_append] at hfuel ⊢
              omega)]
          rw [parseMany_cons, if_pos (Or.inr rfl), prependResult_ok]
          simp only [List.append_nil, except_bind_ok]
          rw [if_pos trivial, hfid]
          have hlen : (encodeList more).length + tail.length < g + 1 := by
            simp only [List.length_cons, List.length_append] at hfuel
            omega
          rw [ih more hszm hwfm tail (g + 1)
            (by simp only [List.length_append]; omega)]
          rw [parseMany_fuel_irrel tail.length (g + 1) (g + 1 + 1) tail le_rfl
            (by omega) (by omega)]
          cases hr : parseMany (g + 1 + 1) tail with
          | error e => simp only [hr, prependResult_error, except_bind_error]
          | ok t =>
            obtain ⟨m, s, r⟩ := t
            simp only [hr, prependResult_ok, except_bind_ok, List.cons_append]


/-- C2: for every syntactically valid `ScriptBit` sequence, decoding the
bytes produced by encoding it yields the same sequence again; in particular
the `OP_ELSE` and `OP_ENDIF` bytes synthesized while encoding an `If` node
are reconstructed into the same `If` structure on decode. -/
theorem script_roundtrip (s : List ScriptBit) (hwf : wfList s = true) :
    parseScript (encodeList s) = .ok s := by
  have h2 : parseMany ((encodeList s).length + 1) (encodeList s) =
      .ok (s, none, []) := by
    have h := parseMany_encodeList_aux (sizeOf s) s le_rfl hwf []
      ((encodeList s).length + 1) (by simp)
    rw [List.append_nil] at h
    rw [h, parseMany_nil, prependResult_ok, List.append_nil]
  simp only [parseScript, h2]

/-- C2 witness: the round trip applied to a concrete script with a
two-branch `If` node, a PUSHDATA and a bare opcode. -/
theorem script_roundtrip_example :
    parseScript (encodeList
      [ScriptBit.If OpCodes.OP_IF [ScriptBit.Push [1]]
         (some [ScriptBit.OpCode OpCodes.OP_DUP]),
       ScriptBit.PushData OpCodes.OP_PUSHDATA1 [5, 6],
       ScriptBit.OpCode OpCodes.OP_0]) =
      .ok
      [ScriptBit.If OpCodes.OP_IF [ScriptBit.Push [1]]
         (some [ScriptBit.OpCode OpCodes.OP_DUP]),
       ScriptBit.PushData OpCodes.OP_PUSHDATA1 [5, 6],
       ScriptBit.OpCode OpCodes.OP_0] :=
  script_roundtrip _ (by rfl)

/-! ## ECDSA verify (`src/ecdsa/verify.rs`), claim C10

The external collaborators (public-key byte conversion, curve-point
decoding, the curve library's digest verification) are parameters; the
control flow is translated from `ECDSA::verify_digest_impl`: every fallible
step propagates its error with `?`, and the function ends with `Ok(true)`. -/

/-- `ECDSA::verify_digest_impl` translated from the source over abstract
collaborator types: `B` public-key bytes, `P` encoded points, `K` verifying
keys, `H` hash algorithms, `M` messages, `D` digests, `S` signatures and `E`
errors. -/
def verify_digest_impl {E B P K H M D S : Type}
    (to_bytes_impl : Except E B)
    (point_from_bytes : B → Except E P)
    (key_from_encoded_point : P → Except E K)
    (get_hash_digest : H → M → D)
    (reverse : D → D)
    (verify_dig : K → D → S → Except E Unit)
    (message : M) (hash_algo : H) (reverse_k : Bool) (sig : S) :
    Except E Bool :=
  (to_bytes_impl).bind fun pub_key_bytes =>
    (point_from_bytes pub_key_bytes).bind fun point =>
      (key_from_encoded_point point).bind fun key =>
        let digest := get_hash_digest hash_algo message
        (match reverse_k with
          | true => verify_dig key (reverse digest) sig
          | false => verify_dig key digest sig).bind fun _ =>
          .ok true

/-- C10: `verify_digest` never returns `Ok(false)`: every failure (invalid
point, rejected signature) propagates through the error channel and the only
successful return value is `true`. -/
theorem verify_digest_never_ok_false {E B P K H M D S : Type}
    (to_bytes_impl : Except E B)
    (point_from_bytes : B → Except E P)
    (key_from_encoded_point : P → Except E K)
    (get_hash_digest : H → M → D)
    (reverse : D → D)
    (verify_dig : K → D → S → Except E Unit)
    (message : M) (hash_algo : H) (reverse_k : Bool) (sig : S) (b : Bool)
    (h : verify_digest_impl to_bytes_impl point_from_bytes
        key_from_encoded_point get_hash_digest reverse verify_dig message
        hash_algo reverse_k sig = .ok b) :
    b = true := by
  unfold verify_digest_impl at h
  cases h1 : to_bytes_impl with
  | error e =>
    rw [h1, except_bind_error] at h
    exact absurd h (by simp)
  | ok pkb =>
    rw [h1, except_bind_ok] at h
    cases h2 : point_from_bytes pkb with
    | error e =>
      rw [h2, except_bind_error] at h
      exact absurd h (by simp)
    | ok pt =>
      rw [h2, except_bind_ok] at h
      cases h3 : key_from_encoded_point pt with
      | error e =>
        rw [h3, except_bind_error] at h
        exact absurd h (by simp)
      | ok key =>
        rw [h3, except_bind_ok] at h
        cases reverse_k with
        | true =>
          simp only at h
          cases h4 : verify_dig key (reverse (get_hash_digest hash_algo message)) sig with
          | error e =>
            rw [h4, except_bind_error] at h
            exact absurd h (by simp)
          | ok u =>
            rw [h4, except_bind_ok] at h
            simp only [Except.ok.injEq] at h
            exact h.symm
        | false =>
          simp only at h
          cases h4 : verify_dig key (get_hash_digest hash_algo message) sig with
          | error e =>
            rw [h4, except_bind_error] at h
            exact absurd h (by simp)
          | ok u =>
            rw [h4, except_bind_ok] at h
            simp only [Except.ok.injEq] at h
            exact h.symm

/-- C10 witness: with trivial collaborators every step succeeds and the
result is exactly `Ok(true)`, as the theorem demands. -/
theorem verify_digest_never_ok_false_example :
    @verify_digest_impl Unit Unit Unit Unit Unit Unit Unit Unit (.ok ())
        (fun _ => .ok ()) (fun _ => .ok ()) (fun _ _ => ()) (fun d => d)
        (fun _ _ _ => .ok ()) () () false () = .ok true ∧
      (true : Bool) = true :=
  ⟨rfl, @verify_digest_never_ok_false Unit Unit Unit Unit Unit Unit Unit Unit
    (.ok ()) (fun _ => .ok ()) (fun _ => .ok ()) (fun _ _ => ()) (fun d => d)
    (fun _ _ _ => .ok ()) () () false () true rfl⟩

/-! ## ECDSA explicit-k signing and private-key recovery (claim C1)

`ECDSA::sign_with_k` and `ECDSA::private_key_from_signature_k` are not among
the provided source files (only their tests are), so they are modelled from
the spec.  Scalar arithmetic is over `ZMod p` with `p` the curve's group
order (a prime); the x-coordinate of `k·G` reduced mod `p` is an abstract
function of `k`, since raw curve-point arithmetic is an external
collaborator. -/

/-- Modelled from the spec: `sign_with_k(private_key, ephemeral_k, message,
hash_algo)` computes `digest z = hash_algo(message)`, `r = x(k·G) mod p` and
`s = k⁻¹(z + r·d) mod p`, returning the pair `(r, s)` (spec section 4.1). -/
def sign_with_k (p : Nat) (M : Type) (xOfKG : ZMod p → ZMod p)
    (hash_digest : M → ZMod p) (d k : ZMod p) (message : M) :
    ZMod p × ZMod p :=
  (xOfKG k, k⁻¹ * (hash_digest message + xOfKG k * d))

/-- Modelled from the spec: `private_key_from_signature_k(signature,
public_key, ephemeral_key, message, hash_algo)` recovers
`d = r⁻¹(s·k − z) mod p` (spec section 4.1). -/
def private_key_from_signature_k (p : Nat) (M : Type)
    (hash_digest : M → ZMod p) (r s k : ZMod p) (message : M) : ZMod p :=
  r⁻¹ * (s * k - hash_digest message)

/-- C1: recovering the private key from a signature produced by
`sign_with_k` with the same ephemeral scalar, message and hash algorithm
returns exactly the signing key, for every valid (nonzero) private key and
ephemeral scalar whose point has a nonzero reduced x-coordinate. -/
theorem sign_with_k_recovery (p : Nat) [Fact p.Prime] (M : Type)
    (xOfKG : ZMod p → ZMod p) (hash_digest : M → ZMod p) (d k : ZMod p)
    (message : M) (hk : k ≠ 0) (hr : xOfKG k ≠ 0) :
    private_key_from_signature_k p M hash_digest
      (sign_with_k p M xOfKG hash_digest d k message).1
      (sign_with_k p M xOfKG hash_digest d k message).2 k message = d := by
  unfold private_key_from_signature_k sign_with_k
  field_simp

/-- C1 witness: the recovery applied over `ZMod 7` with `d = 5`, `k = 3` and
a constant digest. -/
theorem sign_with_k_recovery_example :
    private_key_from_signature_k 7 Unit (fun _ => 2)
      (sign_with_k 7 Unit (fun x => x) (fun _ => 2) 5 3 ()).1
      (sign_with_k 7 Unit (fun x => x) (fun _ => 2) 5 3 ()).2 3 () = 5 :=
  @sign_with_k_recovery 7 ⟨by norm_num⟩ Unit (fun x => x) (fun _ => 2) 5 3 ()
    (by decide) (by decide)

/-! ## BIP32 extended private keys (`src/keypair/extended_private_key.rs`)

Hashing (HMAC-SHA512, double SHA-256), key/point conversion, scalar
arithmetic and base58 are external collaborators, taken as parameters
through `HdExternals`. -/

/-- The `ExtendedPrivateKey` struct; keys are byte strings here since the
key types are external. -/
structure ExtendedPrivateKey where
  private_key : List Nat
  public_key : List Nat
  chain_code : List Nat
  depth : Nat
  index : Nat
  parent_fingerprint : List Nat

/-- External collaborators used by the BIP32 operations: `hmac512 data key`
is `Hash::sha_512_hmac`, `pubToBytes` is `PublicKey::to_bytes_impl`,
`privFromBytes` is `PrivateKey::from_bytes_impl` (validating the scalar),
`pubFromPriv` is `PublicKey::from_private_key(·, compressed)`, and
`scalarAddModN parent il` is the curve-library sum
`parent_scalar + reduce(il) mod n`. -/
structure HdExternals where
  hmac512 : List Nat → List Nat → List Nat
  pubToBytes : List Nat → Except String (List Nat)
  privFromBytes : List Nat → Except String (List Nat)
  pubFromPriv : List Nat → List Nat
  scalarAddModN : List Nat → List Nat → List Nat

/-- `w` big-endian bytes of `n` (`to_be_bytes`). -/
def beBytes (w n : Nat) : List Nat := (leBytes w n).reverse

/-- Value of a big-endian byte string (`read_u32::<BigEndian>`). -/
def beVal (bs : List Nat) : Nat := bs.foldl (fun acc b => acc * 256 + b) 0

/-- `ExtendedPrivateKey::derive_impl` translated from the source: hardened
iff `index ≥ 0x80000000`; HMAC message `0x00 ‖ private_key ‖ be32(index)`
when hardened, `public_key_bytes ‖ be32(index)` otherwise, HMAC key the
parent chain code; the 64-byte output is split into the scalar summand and
the child chain code via `chunks_exact(32)`; the child is assembled with
`depth = parent.depth + 1` (a `u8` sum), the given index, and — as written
in the source — a zero-filled `parent_fingerprint`.  The key-data step is
split out here so proofs can case on it. -/
def derive_key_data (X : HdExternals) (self : ExtendedPrivateKey)
    (index : Nat) : Except String (List Nat) :=
  if 0x80000000 ≤ index then
    .ok (0 :: self.private_key ++ beBytes 4 index)
  else
    (X.pubToBytes self.public_key).bind fun pub_key_bytes =>
      .ok (pub_key_bytes ++ beBytes 4 index)

/-- `ExtendedPrivateKey::derive_impl`, continued: see `derive_key_data` for
the HMAC message construction. -/
def derive_impl (X : HdExternals) (self : ExtendedPrivateKey) (index : Nat) :
    Except String ExtendedPrivateKey :=
  (derive_key_data X self index).bind fun key_data =>
  let seed_bytes := X.hmac512 key_data self.chain_code
  (if seed_bytes.length < 32 then
      (.error "Could not get 32 bytes for private key" :
        Except String (List Nat))
    else .ok (seed_bytes.take 32)).bind fun private_key_bytes =>
  (if seed_bytes.length < 64 then
      (.error "Could not get 32 bytes for chain code" :
        Except String (List Nat))
    else .ok ((seed_bytes.drop 32).take 32)).bind fun child_chain_code =>
  (X.privFromBytes (X.scalarAddModN self.private_key private_key_bytes)).bind
    fun child_private_key =>
  .ok { chain_code := child_chain_code
        private_key := child_private_key
        public_key := X.pubFromPriv child_private_key
        depth := (self.depth + 1) % 256
        index := index
        parent_fingerprint := [0, 0, 0, 0] }

/-- `ExtendedPrivateKey::from_seed_impl` translated from the source:
`HMAC-SHA512(key = "Bitcoin seed", data = seed)`, left half the master
scalar, right half the chain code, `depth = 0`, `index = 0`, zero parent
fingerprint. -/
def from_seed_impl (X : HdExternals) (seed : List Nat) :
    Except String ExtendedPrivateKey :=
  let seed_bytes := X.hmac512 seed
    [66, 105, 116, 99, 111, 105, 110, 32, 115, 101, 101, 100]
  (if seed_bytes.length < 32 then
      (.error "Could not get 32 bytes for private key" :
        Except String (List Nat))
    else .ok (seed_bytes.take 32)).bind fun private_key_bytes =>
  (if seed_bytes.length < 64 then
      (.error "Could not get 32 bytes for chain code" :
        Except String (List Nat))
    else .ok ((seed_bytes.drop 32).take 32)).bind fun chain_code =>
  (X.privFromBytes private_key_bytes).bind fun priv_key =>
  .ok { private_key := priv_key
        public_key := X.pubFromPriv priv_key
        chain_code := chain_code
        depth := 0
        index := 0
        parent_fingerprint := [0, 0, 0, 0] }

/-- `ExtendedPrivateKey::from_random_impl` translated from the source: the
64-byte seed buffer starts zero-filled; the source matches on the
randomness result, constructs an `Ok`/`RandomnessGenerationError` value and
then DISCARDS it (the `match` statement ends with `;` and its value is
never used), so on success the buffer holds the random bytes and on failure
it stays zero-filled, and `from_seed_impl` runs either way. -/
def from_random_impl (X : HdExternals) (rand : Except String (List Nat)) :
    Except String ExtendedPrivateKey :=
  let seed := match rand with
    | .ok v => v
    | .error _ => List.replicate 64 0
  from_seed_impl X seed

/-! ## Claims C6 and C9 -/

/-- C6: every child returned by `derive_impl` carries the literal
`[0, 0, 0, 0]` parent fingerprint the source writes (not the first four
bytes of `RIPEMD160(SHA256(parent_compressed_pubkey))`), together with the
wrapped `u8` depth `parent.depth + 1` and the requested index. -/
theorem derive_impl_zero_fingerprint (X : HdExternals)
    (self : ExtendedPrivateKey) (index : Nat) (child : ExtendedPrivateKey)
    (h : derive_impl X self index = .ok child) :
    child.parent_fingerprint = [0, 0, 0, 0] ∧
    child.depth = (self.depth + 1) % 256 ∧ child.index = index := by
  unfold derive_impl at h
  cases hkd : derive_key_data X self index with
  | error e =>
    rw [hkd, except_bind_error] at h
    exact absurd h (by simp)
  | ok key_data =>
    rw [hkd] at h
    simp only [except_bind_ok] at h
    by_cases h32 : (X.hmac512 key_data self.chain_code).length < 32
    · rw [if_pos h32] at h
      simp only [except_bind_error] at h
      exact absurd h (by simp)
    · rw [if_neg h32] at h
      simp only [except_bind_ok] at h
      by_cases h64 : (X.hmac512 key_data self.chain_code).length < 64
      · rw [if_pos h64] at h
        simp only [except_bind_error] at h
        exact absurd h (by simp)
      · rw [if_neg h64] at h
        simp only [except_bind_ok] at h
        cases hpf : X.privFromBytes (X.scalarAddModN self.private_key
            ((X.hmac512 key_data self.chain_code).take 32)) with
        | error e =>
          rw [hpf] at h
          simp only [except_bind_error] at h
          exact absurd h (by simp)
        | ok cpk =>
          rw [hpf] at h
          simp only [except_bind_ok, Except.ok.injEq] at h
          subst h
          exact ⟨rfl, rfl, rfl⟩

/-- Benign test externals for concrete evaluation. -/
def hdTestExternals : HdExternals :=
  { hmac512 := fun _ _ => List.replicate 64 1
    pubToBytes := fun b => .ok b
    privFromBytes := fun b => .ok b
    pubFromPriv := fun b => b
    scalarAddModN := fun _ il => il }

/-- A concrete parent node. -/
def hdTestParent : ExtendedPrivateKey :=
  { private_key := List.replicate 32 2
    public_key := List.replicate 33 3
    chain_code := List.replicate 32 4
    depth := 0
    index := 0
    parent_fingerprint := [0, 0, 0, 0] }

/-- The child `derive_impl` produces from `hdTestParent` at index 5 under
`hdTestExternals`. -/
def hdTestChild : ExtendedPrivateKey :=
  { private_key := List.replicate 32 1
    public_key := List.replicate 32 1
    chain_code := List.replicate 32 1
    depth := 1
    index := 5
    parent_fingerprint := [0, 0, 0, 0] }

/-- C6 witness: the theorem applied to a concrete successful derivation. -/
theorem derive_impl_zero_fingerprint_example :
    hdTestChild.parent_fingerprint = [0, 0, 0, 0] ∧
    hdTestChild.depth = (hdTestParent.depth + 1) % 256 ∧
    hdTestChild.index = 5 :=
  derive_impl_zero_fingerprint hdTestExternals hdTestParent 5 hdTestChild rfl

/-- C9: when the injected randomness source fails, `from_random_impl` does
not return a randomness-generation error: the constructed error value is
discarded and the function derives a node from the zero-filled 64-byte
seed, succeeding whenever `from_seed_impl` does. -/
theorem from_random_proceeds_on_failure :
    (∀ (X : HdExternals) (e : String),
       from_random_impl X (.error e) =
         from_seed_impl X (List.replicate 64 0)) ∧
    (from_random_impl hdTestExternals (.error "entropy failure")).isOk =
      true :=
  ⟨fun _ _ => rfl, rfl⟩

/-! ## BIP32 serialization (`to_string_impl`), claim C7

The source builds the payload as a hex STRING and then `hex::decode`s it;
crucially it formats the depth with `format!("{:02}", depth)` and the index
with `format!("{:08}", index)` — decimal, zero-padded — not `{:02x}` /
`{:08x}`.  Strings are modelled as `List Char`. -/

/-- Lowercase hex digit for a value below 16. -/
def hexChar (n : Nat) : Char :=
  if n < 10 then Char.ofNat (48 + n) else Char.ofNat (87 + n)

/-- Lowercase hex of a byte string (the `to_hex` collaborator). -/
def bytesToHex (bs : List Nat) : List Char :=
  bs.foldr (fun b acc => hexChar (b / 16 % 16) :: hexChar (b % 16) :: acc) []

/-- Value of one hex digit, if any (the `hex::decode` collaborator). -/
def hexDigitVal (c : Char) : Option Nat :=
  if 48 ≤ c.toNat ∧ c.toNat ≤ 57 then some (c.toNat - 48)
  else if 97 ≤ c.toNat ∧ c.toNat ≤ 102 then some (c.toNat - 87)
  else if 65 ≤ c.toNat ∧ c.toNat ≤ 70 then some (c.toNat - 55)
  else none

/-- `hex::decode`: pairs of hex digits to bytes, failing on an odd length or
a non-hex character. -/
def hexDecode : List Char → Except String (List Nat)
  | [] => .ok []
  | [_] => .error "Odd number of digits"
  | c1 :: c2 :: rest =>
    match hexDigitVal c1, hexDigitVal c2, hexDecode rest with
    | some h, some l, .ok bs => .ok ((16 * h + l) :: bs)
    | _, _, _ => .error "Invalid hex character"

/-- `format!` with a zero-padded minimum width, in DECIMAL: what `{:02}` and
`{:08}` produce. -/
def decPad (w n : Nat) : List Char :=
  let s := Nat.toDigits 10 n
  List.replicate (w - s.length) '0' ++ s

/-- The hex string `to_string_impl` accumulates before the checksum:
version literal, `{:02}` decimal depth, fingerprint hex, `{:08}` decimal
index, chain-code hex, the `"00"` literal and the private-key hex. -/
def to_string_serialised (self : ExtendedPrivateKey) : List Char :=
  "0488ade4".toList ++ decPad 2 self.depth ++
    bytesToHex self.parent_fingerprint ++ decPad 8 self.index ++
    bytesToHex self.chain_code ++
    ('0' :: '0' :: bytesToHex self.private_key)

/-- `ExtendedPrivateKey::to_string_impl` translated from the source, up to
the final base58 encoding (an external collaborator applied to these
bytes): decode the accumulated hex string, append the hex of the first four
`sha_256d` bytes, and decode the whole string again. -/
def to_string_payload (sha256d : List Nat → List Nat)
    (self : ExtendedPrivateKey) : Except String (List Nat) :=
  let serialised := to_string_serialised self
  (hexDecode serialised).bind fun v =>
    hexDecode (serialised ++ bytesToHex ((sha256d v).take 4))

/-- `ExtendedPrivateKey::to_string_impl`: base58 of the payload. -/
def to_string_impl (sha256d : List Nat → List Nat) (b58 : List Nat → String)
    (self : ExtendedPrivateKey) : Except String String :=
  (to_string_payload sha256d self).bind fun v => .ok (b58 v)

/-- A depth-10 node (all other fields zero-filled). -/
def hdNode10 : ExtendedPrivateKey :=
  { private_key := List.replicate 32 0
    public_key := List.replicate 33 0
    chain_code := List.replicate 32 0
    depth := 10
    index := 0
    parent_fingerprint := [0, 0, 0, 0] }

/-- A stand-in double-SHA256 collaborator (its value is irrelevant to the
depth byte). -/
def shaConst : List Nat → List Nat := fun _ => List.replicate 32 7

/-- C7: at depth 10 the serialized payload's depth byte (offset 4) is
`0x10 = 16`, not `10`: the source writes the DECIMAL digits `"10"` into the
hex string, so the claim that the depth byte encodes the numeric depth for
all `0..=255` fails from depth 10 on (and similarly for the index). -/
theorem to_string_depth10_wrong_byte :
    (match to_string_payload shaConst hdNode10 with
     | .ok v => (v.drop 4).head?
     | .error _ => none) = some 16 ∧ (16 : Nat) ≠ 10 := by
  constructor
  · rfl
  · decide

/-! ## BIP32 parsing (`from_string_impl`), claim C8 -/

/-- `read_exact` on a byte cursor: `len` bytes from `pos`, failing when the
input is exhausted first. -/
def readExact (v : List Nat) (pos len : Nat) : Except String (List Nat) :=
  if pos + len ≤ v.length then .ok ((v.drop pos).take len)
  else .error "failed to fill whole buffer"

/-- `ExtendedPrivateKey::from_string_impl` translated from the source:
base58-decode (external, passed as the already-decoded `decoded`), skip the
4 version bytes, then read depth (1B), parent fingerprint (4B), index
(4B big-endian), chain code (32B), skip the `0x00` byte, private key (32B),
validate the key bytes, read the 4 checksum bytes — and return the node
without ever comparing the checksum to anything. -/
def from_string_impl (decoded : Except String (List Nat))
    (privFromBytes : List Nat → Except String (List Nat))
    (pubFromPriv : List Nat → List Nat) :
    Except String ExtendedPrivateKey :=
  decoded.bind fun v =>
  (readExact v 4 1).bind fun depthB =>
  (readExact v 5 4).bind fun parent_fingerprint =>
  (readExact v 9 4).bind fun indexB =>
  (readExact v 13 32).bind fun chain_code =>
  (readExact v 46 32).bind fun private_key_bytes =>
  (privFromBytes private_key_bytes).bind fun private_key =>
  (readExact v 78 4).bind fun _checksum =>
  .ok { private_key := private_key
        public_key := pubFromPriv private_key
        chain_code := chain_code
        depth := depthB.headD 0
        index := beVal indexB
        parent_fingerprint := parent_fingerprint }

theorem take_append_le {a : Type} :
    ∀ (l1 l2 : List a) (n : Nat), n ≤ l1.length →
      (l1 ++ l2).take n = l1.take n := by
  intro l1
  induction l1 with
  | nil =>
    intro l2 n h
    simp at h
    simp [h]
  | cons x l ih =>
    intro l2 n h
    cases n with
    | zero => simp
    | succ n =>
      simp only [List.cons_append, List.take_succ_cons]
      rw [ih l2 n (by simpa using h)]

theorem drop_append_le {a : Type} :
    ∀ (l1 l2 : List a) (n : Nat), n ≤ l1.length →
      (l1 ++ l2).drop n = l1.drop n ++ l2 := by
  intro l1
  induction l1 with
  | nil =>
    intro l2 n h
    simp at h
    simp [h]
  | cons x l ih =>
    intro l2 n h
    cases n with
    | zero => simp
    | succ n =>
      simp only [List.cons_append, List.drop_succ_cons]
      exact ih l2 n (by simpa using h)

/-- A read that stays inside a prefix is independent of what follows it. -/
theorem readExact_append (u c : List Nat) (pos len : Nat)
    (h : pos + len ≤ u.length) :
    readExact (u ++ c) pos len = .ok ((u.drop pos).take len) := by
  unfold readExact
  rw [if_pos (by simp only [List.length_append]; omega)]
  rw [drop_append_le u c pos (by omega),
    take_append_le (u.drop pos) c len (by simp only [List.length_drop]; omega)]

/-- C8: the parse result is entirely independent of the 4 trailing checksum
bytes — the code reads them and never compares them — and a concrete
82-byte input with a garbage checksum is accepted. -/
theorem from_string_ignores_checksum :
    (∀ (u c1 c2 : List Nat)
       (privF : List Nat → Except String (List Nat))
       (pubF : List Nat → List Nat),
       u.length = 78 → c1.length = 4 → c2.length = 4 →
       from_string_impl (.ok (u ++ c1)) privF pubF =
         from_string_impl (.ok (u ++ c2)) privF pubF) ∧
    (from_string_impl (.ok (List.replicate 78 1 ++ [9, 9, 9, 9]))
        (fun b => .ok b) (fun b => b)).isOk = true := by
  constructor
  · intro u c1 c2 privF pubF hu hc1 hc2
    unfold from_string_impl
    simp only [except_bind_ok]
    rw [readExact_append u c1 4 1 (by omega),
      readExact_append u c2 4 1 (by omega),
      readExact_append u c1 5 4 (by omega),
      readExact_append u c2 5 4 (by omega),
      readExact_append u c1 9 4 (by omega),
      readExact_append u c2 9 4 (by omega),
      readExact_append u c1 13 32 (by omega),
      readExact_append u c2 13 32 (by omega),
      readExact_append u c1 46 32 (by omega),
      readExact_append u c2 46 32 (by omega)]
    simp only [except_bind_ok]
    cases hpf : privF ((u.drop 46).take 32) with
    | error e => rw [except_bind_error, except_bind_error]
    | ok pk =>
      rw [except_bind_ok, except_bind_ok]
      rw [show readExact (u ++ c1) 78 4 = .ok ((u ++ c1).drop 78 |>.take 4) from by
            unfold readExact
            rw [if_pos (by simp only [List.length_append]; omega)],
          show readExact (u ++ c2) 78 4 = .ok ((u ++ c2).drop 78 |>.take 4) from by
            unfold readExact
            rw [if_pos (by simp only [List.length_append]; omega)]]
      rw [except_bind_ok, except_bind_ok]
  · rfl

/-- C8 witness: the independence applied at a concrete payload with two
different checksums. -/
theorem from_string_ignores_checksum_example :
    from_string_impl (.ok (List.replicate 78 1 ++ [9, 9, 9, 9]))
        (fun b => .ok b) (fun b => b) =
      from_string_impl (.ok (List.replicate 78 1 ++ [1, 2, 3, 4]))
        (fun b => .ok b) (fun b => b) :=
  from_string_ignores_checksum.1 (List.replicate 78 1) [9, 9, 9, 9]
    [1, 2, 3, 4] (fun b => .ok b) (fun b => b) (by decide) (by decide)
    (by decide)

end BsvWasm












